import Mathlib

/-!
Verification of the TravCraft Discord bot (`travcraft_bot.py`).

Python strings are embedded as `List Char`; the Python string operations
the bot uses (`split('\n')`, `'\n'.join`, `strip()`, `replace`, `in`,
slicing `[:10]`) are embedded as executable Lean functions below.  The
bot's sync jobs perform Discord I/O; they are embedded as explicit state
passing: each job maps a configuration record plus an environment record
(describing the outcome of the external calls that the job makes) to the
updated configuration and the ordered trace of externally visible actions
(messages sent / edited / deleted, settings saved, fetches issued).
-/

namespace Trav

/-- Whitespace characters stripped by Python's `str.strip()` (ASCII range). -/
def isWS (c : Char) : Bool :=
  c = ' ' || c = '\t' || c = '\n' || c = '\r' || c = '\x0b' || c = '\x0c'


/-- Embedding of Python `str.strip()`: drop whitespace from both ends. -/
def pyStrip (l : List Char) : List Char :=
  ((l.dropWhile isWS).reverse.dropWhile isWS).reverse


/-- Embedding of Python `s.split('\n')`: split into lines at newline
characters, keeping empty fields (`"".split('\n') == [""]`). -/
def splitNL : List Char → List (List Char)
  | [] => [[]]
  | c :: rest =>
    if c = '\n' then [] :: splitNL rest
    else
      match splitNL rest with
      | [] => [[c]]
      | l :: ls => (c :: l) :: ls


/-- Embedding of Python `'\n'.join(lines)`. -/
def joinLines : List (List Char) → List Char
  | [] => []
  | [l] => l
  | l :: rest => l ++ '\n' :: joinLines rest


/-- `startsWith pat l` holds when `pat` is a prefix of `l` (used to embed
the `^pat` anchors of the bot's `MULTILINE` regex substitutions). -/
def startsWith : List Char → List Char → Bool
  | [], _ => true
  | _ :: _, [] => false
  | p :: ps, c :: cs => p = c && startsWith ps cs


/-- `containsSub pat l` embeds Python's substring test `pat in l`. -/
def containsSub (pat : List Char) : List Char → Bool
  | [] => startsWith pat []
  | c :: rest => startsWith pat (c :: rest) || containsSub pat rest


/-- Embedding of Python `s.replace(pat, rep)` for a non-empty pattern:
replace every (leftmost, non-overlapping) occurrence of `pat` by `rep`. -/
def pyReplace (l pat rep : List Char) : List Char :=
  match l, pat with
  | l, [] => l
  | [], _ :: _ => []
  | c :: rest, p :: ps =>
    if startsWith (p :: ps) (c :: rest) then
      rep ++ pyReplace ((c :: rest).drop (p :: ps).length) (p :: ps) rep
    else
      c :: pyReplace rest (p :: ps) rep
termination_by l.length
decreasing_by
  · simp only [List.length_drop, List.length_cons]
    omega
  · simp [Nat.lt_succ_self]


/-! ### `parse_changelog` (source lines 219-239) -/


/-- The "success" glyph literal of `parse_changelog` (three characters,
copied from the source file). -/
def successGlyph : List Char := ['‚', 'ú', 'Ö']


/-- The "added" glyph literal of `parse_changelog`. -/
def addedGlyph : List Char := ['‚', 'û', 'ï']


/-- The "failure" glyph literal of `parse_changelog`. -/
def failureGlyph : List Char := ['‚', 'ù', 'å']


/-- The "removed" glyph literal of `parse_changelog`. -/
def removedGlyph : List Char := ['‚', 'û', 'ñ']


def addedMarker : List Char := "### Added Mods".toList

def removedMarker : List Char := "### Removed Mods".toList

def statsMarker : List Char := "### Statistics".toList


/-- `line.replace(success, added).replace(failure, removed)` from the
collection branch of `parse_changelog`. -/
def cleanLine (line : List Char) : List Char :=
  pyReplace (pyReplace line successGlyph addedGlyph) failureGlyph removedGlyph


/-- The `for line in lines` loop of `parse_changelog`, returning the
collected changelog lines in order. -/
def changelogLoop : List (List Char) → Bool → List (List Char)
  | [], _ => []
  | line :: rest, inChanges =>
    if containsSub addedMarker line || containsSub removedMarker line then
      changelogLoop rest true
    else if containsSub statsMarker line then
      changelogLoop rest false
    else if inChanges && !(pyStrip line).isEmpty then
      cleanLine line :: changelogLoop rest inChanges
    else
      changelogLoop rest inChanges


/-- Embedding of `parse_changelog` (source lines 219-239). -/
def parse_changelog (body : List Char) : Option (List Char) :=
  if body.isEmpty then none
  else
    let changelog_lines := changelogLoop (splitNL body) false
    if !changelog_lines.isEmpty then some (joinLines (changelog_lines.take 10))
    else none


/-- One step of the scan described by claim C1: a line containing an
Added/Removed Mods heading switches collection on, a Statistics heading
switches it off, and any other non-blank line seen while collection is on
is appended (glyph-normalized) to the collected list. -/
def changelogStepSpec (st : Bool × List (List Char)) (line : List Char) :
    Bool × List (List Char) :=
  if containsSub addedMarker line || containsSub removedMarker line then (true, st.2)
  else if containsSub statsMarker line then (false, st.2)
  else if st.1 && !(pyStrip line).isEmpty then (st.1, st.2 ++ [cleanLine line])
  else st


/-- Changelog extraction as worded by claim C1: scan the body's lines in
order with `changelogStepSpec` starting with collection off, and return
the newline-join of the first 10 collected lines, or `none` when the body
is empty or nothing was collected. -/
def parse_changelog_spec (body : List Char) : Option (List Char) :=
  if body = [] then none
  else
    let collected := (List.foldl changelogStepSpec (false, []) (splitNL body)).2
    if collected = [] then none else some (joinLines (collected.take 10))


/-! ### `split_content` (source lines 366-386) -/


/-- The `for line in lines` loop of `split_content`, carrying the running
buffer `current` (already holding `current_chunk` of the Python code) and
returning the emitted chunks in order. -/
def split_loop (maxLength : Nat) : List (List Char) → List Char → List (List Char)
  | [], current => if current.isEmpty then [] else [pyStrip current]
  | line :: rest, current =>
    if current.length + line.length + 1 ≤ maxLength then
      split_loop maxLength rest (current ++ line ++ ['\n'])
    else if current.isEmpty then
      split_loop maxLength rest (line ++ ['\n'])
    else
      pyStrip current :: split_loop maxLength rest (line ++ ['\n'])


/-- Embedding of `split_content` (source lines 366-386). -/
def split_content (content : List Char) (maxLength : Nat) : List (List Char) :=
  if content.length ≤ maxLength then [content]
  else split_loop maxLength (splitNL content) []


/-- A line is *chunkable* for limit `maxLength` when it is non-blank, has
no surrounding whitespace (it equals its own strip), and fits in a chunk
together with its trailing newline separator. -/
def goodLine (maxLength : Nat) (l : List Char) : Prop :=
  l ≠ [] ∧ pyStrip l = l ∧ l.length + 1 ≤ maxLength


/-- The chunking postcondition exactly as worded by claim C2: one chunk
equal to the input when it fits, otherwise at least two chunks, each at
most the limit, with chunk boundaries never splitting a line and the
chunks' lines reproducing the input's lines in order. -/
def splitContentClaim (content : List Char) (maxLength : Nat) : Prop :=
  (content.length ≤ maxLength → split_content content maxLength = [content]) ∧
  (maxLength < content.length →
    2 ≤ (split_content content maxLength).length ∧
    (∀ c ∈ split_content content maxLength, c.length ≤ maxLength) ∧
    ((split_content content maxLength).map splitNL).flatten = splitNL content)


instance (n : Nat) (l : List Char) : Decidable (goodLine n l) := by
  unfold goodLine
  infer_instance


/-! ### `markdown_to_discord` (source lines 351-364) -/


/-- The level-1 header marker `"# "` of the `^# (.*)` pattern. -/
def h1Marker : List Char := ['#', ' ']


/-- The level-2 header marker `"## "` of the `^## (.*)` pattern. -/
def h2Marker : List Char := ['#', '#', ' ']


/-- The level-3 header marker `"### "` of the `^### (.*)` pattern. -/
def h3Marker : List Char := ['#', '#', '#', ' ']


/-- Discord bold delimiter `**`. -/
def boldMark : List Char := ['*', '*']


/-- Discord underline-plus-bold opener `__**`. -/
def uboldL : List Char := ['_', '_', '*', '*']


/-- Discord underline-plus-bold closer `**__`. -/
def uboldR : List Char := ['*', '*', '_', '_']


/-- The per-line effect of one `re.sub('^pre(.*)', wrapL + group + wrapR,
content, flags=MULTILINE)` pass. -/
def headerLine (pre wrapL wrapR : List Char) (line : List Char) : List Char :=
  if startsWith pre line then wrapL ++ line.drop pre.length ++ wrapR else line


/-- One whole-text `re.sub` pass with a `^pre(.*)` `MULTILINE` pattern:
every line starting with `pre` is rewritten by `headerLine`. -/
def subHeader (pre wrapL wrapR : List Char) (content : List Char) : List Char :=
  joinLines ((splitNL content).map (headerLine pre wrapL wrapR))


/-- The code-fence pass ``re.sub(r'```(\w+)\n', r'```\1\n', content)``
replaces every match by the matched text itself, so it is the identity. -/
def subCodeFence (content : List Char) : List Char := content


/-- Embedding of `re.sub(r'\n{3,}', '\n\n', content)`: each maximal run of
three or more newline characters collapses to exactly two. -/
def collapseNL : List Char → List Char
  | [] => []
  | c :: rest =>
    if c = '\n' then
      (if 3 ≤ (rest.takeWhile (fun d => d = '\n')).length + 1 then ['\n', '\n']
       else '\n' :: rest.takeWhile (fun d => d = '\n')) ++
        collapseNL (rest.dropWhile (fun d => d = '\n'))
    else c :: collapseNL rest
termination_by l => l.length
decreasing_by
  · simp only [List.length_cons]
    exact Nat.lt_succ_of_le ((List.dropWhile_suffix _).length_le)
  · simp [Nat.lt_succ_self]


/-- Embedding of `markdown_to_discord` (source lines 351-364): the three
header substitutions in source order (level 3, then 2, then 1), the
identity code-fence pass, then the newline collapse. -/
def markdown_to_discord (content : List Char) : List Char :=
  collapseNL (subCodeFence
    (subHeader h1Marker uboldL uboldR
      (subHeader h2Marker uboldL uboldR
        (subHeader h3Marker boldMark boldMark content))))


/-- Per-line header rewriting as worded by claim C6: a line beginning
with one or two marker characters plus a space becomes underlined-bold
emphasis around the remainder, three marker characters plus a space
become bold-only emphasis. -/
def headerLineSpec (line : List Char) : List Char :=
  if startsWith h1Marker line then uboldL ++ line.drop 2 ++ uboldR
  else if startsWith h2Marker line then uboldL ++ line.drop 3 ++ uboldR
  else if startsWith h3Marker line then boldMark ++ line.drop 4 ++ boldMark
  else line


/-- Markdown adaptation as worded by claim C6: rewrite every line by
`headerLineSpec`, then collapse every run of three or more newlines to
exactly two. -/
def markdown_to_discord_spec (content : List Char) : List Char :=
  collapseNL (joinLines ((splitNL content).map headerLineSpec))


/-! ### Idempotence machinery for `markdown_to_discord` -/


/-- Whether the text contains a run of three (or more) consecutive
newline characters, i.e. a site where the newline collapse acts. -/
def hasTripleNL : List Char → Bool
  | a :: b :: c :: rest => (a = '\n' && b = '\n' && c = '\n') || hasTripleNL (b :: c :: rest)
  | _ => false


/-- The fused one-pass header rewriting of the markdown adaptation. -/
def mdHeaders (content : List Char) : List Char :=
  joinLines ((splitNL content).map headerLineSpec)


/-- A text all of whose lines are fixed points of the header rewriting. -/
def linesFixed (y : List Char) : Prop := ∀ l ∈ splitNL y, headerLineSpec l = l


/-! ### Configuration and effect model for the sync jobs

The bot's jobs perform Discord and HTTP I/O.  They are embedded as
functions from a configuration record (the persisted `bot_config.json`
state) and an environment record — describing the outcomes of the
external calls the job makes (HTTP status, whether channels resolve,
whether message edits succeed, the ids Discord assigns to new messages) —
to the updated configuration and the ordered trace of externally visible
actions.  `save_config()` calls appear in the trace as `saveConfig`. -/


/-- The bot configuration (`bot_config.json`), flattened. -/
structure Config where
  owner : List Char
  repo : List Char
  check_interval : Nat
  release_announcements : Option Nat
  minecraft_chat : Option Nat
  modlist : Option Nat
  readme : Option Nat
  release_announcement_id : Option Nat
  modlist_message_id : Option Nat
  readme_message_id : Option Nat
  last_release_tag : Option (List Char)
  bot_prefix_setting : List Char
deriving DecidableEq


/-- Externally visible actions of a job, in execution order.
`announceCall` marks the invocation of `announce_new_release` from the
release check; the `fetch*` markers record the upstream HTTP request. -/
inductive Action where
  | fetchReleases
  | fetchModlist
  | fetchReadme
  | announceCall (tag : List Char)
  | sentEmbed (ch msgId : Nat)
  | editedEmbed (ch msgId : Nat)
  | sentMc (ch msgId : Nat)
  | sentText (ch msgId : Nat) (content : List Char)
  | editedText (ch msgId : Nat) (content : List Char)
  | deleted (ch msgId : Nat)
  | saveConfig
deriving DecidableEq


/-- Python truthiness of an optional id field (`None` and `0` are falsy). -/
def pyTruthy : Option Nat → Bool
  | none => false
  | some n => n != 0


/-- The modlist message payload: the chunk wrapped in a Markdown fence. -/
def wrapMd (chunk : List Char) : List Char :=
  "```markdown\n".toList ++ chunk ++ "\n```".toList


/-- The fallback edit payload used when the chunk list is empty. -/
def emptyModlistMsg : List Char := "Modlist is empty".toList


/-- Environment of `announce_new_release`: outcomes of the channel
lookups and message operations. -/
structure AnnounceEnv where
  raFound : Bool
  editOk : Bool
  sendOk : Bool
  newId : Nat
  mcFound : Bool
  mcSendOk : Bool
  mcId : Nat


/-- The send-new-message path of the release announcement (send, record
the new id, persist); a failed send is caught by the enclosing handler
without recording anything. -/
def announce_send_new (cfg : Config) (env : AnnounceEnv) (ch : Nat) : Config × List Action :=
  if env.sendOk = true then
    ({ cfg with release_announcement_id := some env.newId },
     [.sentEmbed ch env.newId, .saveConfig])
  else (cfg, [])


/-- The edit-or-send reconciliation of `announce_new_release` for the
release-announcements channel (source lines 191-204). -/
def announce_release_ra (cfg : Config) (env : AnnounceEnv) (ch : Nat) : Config × List Action :=
  match cfg.release_announcement_id with
  | some mid =>
    if mid ≠ 0 then
      if env.editOk = true then (cfg, [.editedEmbed ch mid])
      else announce_send_new cfg env ch
    else announce_send_new cfg env ch
  | none => announce_send_new cfg env ch


/-- The plain-text notification to the Minecraft chat channel
(source lines 208-217). -/
def announce_mc (cfg : Config) (env : AnnounceEnv) : List Action :=
  match cfg.minecraft_chat with
  | some ch =>
    if ch ≠ 0 ∧ env.mcFound = true ∧ env.mcSendOk = true then [.sentMc ch env.mcId] else []
  | none => []


/-- Embedding of the delivery section of `announce_new_release`
(source lines 186-217); the embed construction is not modeled. -/
def announce_new_release (cfg : Config) (env : AnnounceEnv) : Config × List Action :=
  let ra :=
    match cfg.release_announcements with
    | some ch => if ch ≠ 0 ∧ env.raFound = true then announce_release_ra cfg env ch else (cfg, [])
    | none => (cfg, [])
  (ra.1, ra.2 ++ announce_mc cfg env)


/-- Environment of `update_modlist`. -/
structure ModlistEnv where
  sessionLive : Bool
  fetchStatus : Nat
  content : List Char
  channelFound : Bool
  editOk : Bool
  newIds : Nat → Nat


/-- The `for chunk in chunks: channel.send(...)` loop of
`update_modlist`, with the id assigned to the k-th send. -/
def sendChunksMd (ch : Nat) (ids : Nat → Nat) (chunks : List (List Char)) : List Action :=
  chunks.enum.map (fun p => .sentText ch (ids p.1) (wrapMd p.2))


/-- Embedding of `update_modlist` (source lines 241-295). -/
def update_modlist (cfg : Config) (env : ModlistEnv) : Config × List Action :=
  if env.sessionLive = false ∨ pyTruthy cfg.modlist = false then (cfg, [])
  else
    if env.fetchStatus ≠ 200 then (cfg, [.fetchModlist])
    else
      let chunks := split_content env.content 1900
      match cfg.modlist with
      | none => (cfg, [])
      | some ch =>
        if env.channelFound = false then (cfg, [.fetchModlist])
        else
          if pyTruthy cfg.modlist_message_id = true then
            match cfg.modlist_message_id with
            | none => (cfg, [.fetchModlist])
            | some mid =>
              if env.editOk = true then
                (cfg, .fetchModlist ::
                  .editedText ch mid (if chunks.isEmpty then emptyModlistMsg
                                      else wrapMd (chunks.headD [])) ::
                  (if chunks.length > 1 then
                    .deleted ch mid :: sendChunksMd ch env.newIds chunks
                  else []))
              else
                (cfg, .fetchModlist :: sendChunksMd ch env.newIds chunks)
          else
            match chunks with
            | [] => (cfg, [.fetchModlist])
            | c0 :: crest =>
              ({ cfg with modlist_message_id := some (env.newIds 0) },
               .fetchModlist :: .sentText ch (env.newIds 0) (wrapMd c0) :: .saveConfig ::
                 crest.enum.map (fun p => .sentText ch (env.newIds (p.1 + 1)) (wrapMd p.2)))


/-- A message of the channel history, as far as `update_readme` inspects
it. -/
structure ChatMsg where
  id : Nat
  authorIsBot : Bool
deriving DecidableEq


/-- Environment of `update_readme`; `history` is what
`channel.history(limit=10)` yields, most recent first. -/
structure ReadmeEnv where
  sessionLive : Bool
  fetchStatus : Nat
  content : List Char
  channelFound : Bool
  history : List ChatMsg
  newIds : Nat → Nat


/-- Embedding of `update_readme` (source lines 297-344). -/
def update_readme (cfg : Config) (env : ReadmeEnv) : Config × List Action :=
  if env.sessionLive = false ∨ pyTruthy cfg.readme = false then (cfg, [])
  else
    if env.fetchStatus ≠ 200 then (cfg, [.fetchReadme])
    else
      let chunks := split_content (markdown_to_discord env.content) 1900
      match cfg.readme with
      | none => (cfg, [])
      | some ch =>
        if env.channelFound = false then (cfg, [.fetchReadme])
        else
          (cfg, .fetchReadme ::
            ((env.history.filter (fun m => m.authorIsBot)).map (fun m => .deleted ch m.id) ++
              chunks.enum.map (fun p => .sentText ch (env.newIds p.1) p.2)))


/-- Environment of `check_github_releases`. -/
structure CheckEnv where
  sessionLive : Bool
  fetchStatus : Nat
  tagName : Option (List Char)
  ann : AnnounceEnv
  ml : ModlistEnv


/-- Embedding of `check_github_releases` (source lines 108-146): on a new
truthy tag, announce, refresh the modlist, then record and persist the
tag. -/
def check_github_releases (cfg : Config) (env : CheckEnv) : Config × List Action :=
  if env.sessionLive = false then (cfg, [])
  else if env.fetchStatus ≠ 200 then (cfg, [.fetchReleases])
  else
    match env.tagName with
    | none => (cfg, [.fetchReleases])
    | some t =>
      if t ≠ [] ∧ some t ≠ cfg.last_release_tag then
        let ra := announce_new_release cfg env.ann
        let ml := update_modlist ra.1 env.ml
        ({ ml.1 with last_release_tag := some t },
         .fetchReleases :: .announceCall t :: (ra.2 ++ ml.2) ++ [.saveConfig])
      else (cfg, [.fetchReleases])


/-- Number of `save_config()` calls recorded in a trace. -/
def countSaves (tr : List Action) : Nat :=
  (tr.filter (fun a => a = Action.saveConfig)).length


/-- Whether an action is a message operation on the
release-announcements channel (an embed send or embed edit). -/
def isAnnOp : Action → Bool
  | .sentEmbed _ _ => true
  | .editedEmbed _ _ => true
  | _ => false


/-- Whether an action marks an invocation of `announce_new_release`. -/
def isAnnounceCall : Action → Bool
  | .announceCall _ => true
  | _ => false


/-- Number of `announce_new_release` invocations recorded in a trace. -/
def announceCount (tr : List Action) : Nat :=
  (tr.filter isAnnounceCall).length


/-- A configuration with no channel bound, used as witness input. -/
def cfgUnbound : Config :=
  ⟨[], [], 300, none, none, none, none, none, none, none, none, ['!']⟩


/-- A modlist environment for witness inputs. -/
def envModlistW : ModlistEnv := ⟨true, 200, [], true, true, fun _ => 0⟩


/-- A readme environment for witness inputs. -/
def envReadmeW : ReadmeEnv := ⟨true, 200, [], true, [], fun _ => 0⟩


/-- A configuration with the modlist channel bound, used as witness
input. -/
def cfgModlist : Config :=
  ⟨[], [], 300, none, none, some 1, none, none, none, none, none, ['!']⟩


/-- A failing check environment for witness inputs. -/
def envCheckFail : CheckEnv :=
  ⟨true, 404, none, ⟨true, true, true, 0, true, true, 0⟩, envModlistW⟩


/-- A failing modlist environment for witness inputs. -/
def envModlistFail : ModlistEnv := ⟨true, 404, [], true, true, fun _ => 0⟩


/-- A configuration with the readme channel bound, used as witness input. -/
def cfgReadme : Config :=
  ⟨[], [], 300, none, none, none, some 2, none, none, none, none, ['!']⟩


/-- A successful readme run environment with a two-message history. -/
def envReadmeRun : ReadmeEnv :=
  ⟨true, 200, ['h', 'i'], true, [⟨5, true⟩, ⟨6, false⟩], fun k => 100 + k⟩


/-- A configuration with the release-announcements channel bound and no
tracked announcement id, used as witness input. -/
def cfgAnnounce : Config :=
  ⟨[], [], 300, some 3, none, none, none, none, none, none, none, ['!']⟩


/-- An announce environment whose sends succeed, used as witness input. -/
def envAnnounceW : AnnounceEnv := ⟨true, false, true, 42, true, true, 7⟩


/-- A 1000-character line of `a`s. -/
def lineA : List Char := List.replicate 1000 'a'


/-- A 1000-character line of `b`s. -/
def lineB : List Char := List.replicate 1000 'b'


/-- A 2001-character two-line modlist document (splits into 2 chunks at
limit 1900). -/
def mlContent : List Char := joinLines [lineA, lineB]


/-- Claim C4 as worded, relative to a ghost `prevCount` (the number of
chunks previously sent — the code stores no such count): for a run of
`update_modlist` with a tracked (truthy) message identifier whose edit
succeeds, if the new content requires more chunks than previously sent,
the previously tracked message is deleted, all chunks are resent as new
messages, and only the first chunk's identifier is re-tracked (recorded
in settings and persisted); otherwise the tracked message is (only)
edited in place. -/
def modlistGrowClaim (prevCount : Nat) (cfg : Config) (env : ModlistEnv) : Prop :=
  match cfg.modlist, cfg.modlist_message_id with
  | some ch, some mid =>
    ch ≠ 0 → mid ≠ 0 → env.sessionLive = true → env.fetchStatus = 200 →
    env.channelFound = true → env.editOk = true →
    (if (split_content env.content 1900).length > prevCount then
      Action.deleted ch mid ∈ (update_modlist cfg env).2 ∧
      sendChunksMd ch env.newIds (split_content env.content 1900) <:+
        (update_modlist cfg env).2 ∧
      (update_modlist cfg env).1.modlist_message_id = some (env.newIds 0) ∧
      1 ≤ countSaves (update_modlist cfg env).2
    else
      (update_modlist cfg env).2 =
        [Action.fetchModlist,
         Action.editedText ch mid (if (split_content env.content 1900).isEmpty
           then emptyModlistMsg
           else wrapMd ((split_content env.content 1900).headD []))])
  | _, _ => True


/-- A configuration with the modlist channel bound and a tracked modlist
message id. -/
def cfgModTracked : Config :=
  ⟨[], [], 300, none, none, some 1, none, none, some 5, none, none, ['!']⟩


/-- A successful modlist environment whose content needs two chunks. -/
def envModGrow : ModlistEnv := ⟨true, 200, mlContent, true, true, fun k => 100 + k⟩


/-- A successful modlist environment with a single-chunk document. -/
def envModSmall : ModlistEnv := ⟨true, 200, ['h', 'i'], true, true, fun k => 100 + k⟩


/-- A successful check environment fetching tag `"v"`. -/
def envCheckT : CheckEnv :=
  ⟨true, 200, some ['v'], ⟨true, true, true, 0, true, true, 0⟩, envModlistW⟩


/-! ### Basic lemmas about the string model -/

theorem splitNL_ne_nil (l : List Char) : splitNL l ≠ [] := by
  induction l with
  | nil => simp [splitNL]
  | cons c rest ih =>
    simp only [splitNL]
    split
    · simp
    · cases h : splitNL rest <;> simp


theorem mem_splitNL_no_newline (l : List Char) :
    ∀ s ∈ splitNL l, '\n' ∉ s := by
  induction l with
  | nil => intro s hs; simp [splitNL] at hs; simp [hs]
  | cons c rest ih =>
    intro s hs
    simp only [splitNL] at hs
    by_cases hc : c = '\n'
    · simp [hc] at hs
      rcases hs with h | h
      · simp [h]
      · exact ih s h
    · simp [hc] at hs
      rcases hhd : splitNL rest with _ | ⟨l0, ls⟩
      · exact absurd hhd (splitNL_ne_nil rest)
      · rw [hhd] at hs
        simp at hs
        rcases hs with h | h
        · subst h
          intro hmem
          simp at hmem
          rcases hmem with h | h
          · exact hc h.symm
          · exact ih l0 (by rw [hhd]; simp) h
        · exact ih s (by rw [hhd]; simp [h])


theorem joinLines_cons_cons (l l2 : List Char) (rest : List (List Char)) :
    joinLines (l :: l2 :: rest) = l ++ '\n' :: joinLines (l2 :: rest) := by
  rfl


theorem splitNL_cons_nl (l : List Char) : splitNL ('\n' :: l) = [] :: splitNL l := by
  simp [splitNL]


theorem splitNL_cons_ne (c : Char) (l : List Char) (hc : c ≠ '\n') :
    splitNL (c :: l) =
      match splitNL l with
      | [] => [[c]]
      | x :: xs => (c :: x) :: xs := by
  simp [splitNL, hc]


theorem joinLines_splitNL (l : List Char) : joinLines (splitNL l) = l := by
  induction l with
  | nil => simp [splitNL, joinLines]
  | cons c rest ih =>
    by_cases hc : c = '\n'
    · subst hc
      rcases hhd : splitNL rest with _ | ⟨l0, ls⟩
      · exact absurd hhd (splitNL_ne_nil rest)
      · rw [hhd] at ih
        rw [splitNL_cons_nl, hhd, joinLines_cons_cons, ih]
        simp
    · rcases hhd : splitNL rest with _ | ⟨l0, ls⟩
      · exact absurd hhd (splitNL_ne_nil rest)
      · rw [hhd] at ih
        rw [splitNL_cons_ne c rest hc, hhd]
        cases ls with
        | nil => simpa [joinLines] using congrArg (c :: ·) ih
        | cons l1 ls1 =>
          rw [joinLines_cons_cons] at ih ⊢
          simpa using congrArg (c :: ·) ih


theorem splitNL_append_newline (a b : List Char) (ha : '\n' ∉ a) :
    splitNL (a ++ '\n' :: b) = a :: splitNL b := by
  induction a with
  | nil => simp [splitNL]
  | cons c rest ih =>
    have hc : c ≠ '\n' := by
      intro h; exact ha (by simp [h])
    have hrest : '\n' ∉ rest := fun h => ha (by simp [h])
    rw [List.cons_append, splitNL_cons_ne c _ hc, ih hrest]


theorem splitNL_joinLines (ls : List (List Char)) (hne : ls ≠ [])
    (hnl : ∀ l ∈ ls, '\n' ∉ l) : splitNL (joinLines ls) = ls := by
  induction ls with
  | nil => exact absurd rfl hne
  | cons l rest ih =>
    cases rest with
    | nil =>
      simp only [joinLines]
      have hl : '\n' ∉ l := hnl l (by simp)
      clear ih hne hnl
      induction l with
      | nil => simp [splitNL]
      | cons c cs ihc =>
        have hc : c ≠ '\n' := fun h => hl (by simp [h])
        have hcs : '\n' ∉ cs := fun h => hl (by simp [h])
        simp only [splitNL, if_neg hc, ihc hcs]
    | cons l2 rest2 =>
      rw [joinLines_cons_cons]
      rw [splitNL_append_newline _ _ (hnl l (by simp))]
      rw [ih (by simp) (fun x hx => hnl x (by simp [hx]))]


theorem changelogLoop_foldl (lines : List (List Char)) :
    ∀ (b : Bool) (acc : List (List Char)),
      (List.foldl changelogStepSpec (b, acc) lines).2 = acc ++ changelogLoop lines b := by
  induction lines with
  | nil => intro b acc; simp [changelogLoop]
  | cons line rest ih =>
    intro b acc
    simp only [List.foldl_cons, changelogLoop, changelogStepSpec]
    by_cases h1 : containsSub addedMarker line || containsSub removedMarker line
    · simp [h1, ih]
    · simp only [h1, if_false, Bool.false_eq_true]
      by_cases h2 : containsSub statsMarker line
      · simp [h2, ih]
      · simp only [h2, if_false, Bool.false_eq_true]
        by_cases h3 : b && !(pyStrip line).isEmpty
        · simp [h3, ih]
        · simp [h3, ih]


/-- C1 (confirmed).  Changelog extraction: for every release body text,
scanning its lines in order, collection is switched on by any line
containing an "Added Mods" or "Removed Mods" level-3 heading and switched
off by any line containing a level-3 "Statistics" heading; every non-blank
line seen while collection is on (marker lines excluded) is collected with
the success glyph replaced by the added glyph and the failure glyph by the
removed glyph; the result is the newline-join of the first 10 collected
lines, and is `none` when the body is empty or no line is collected. -/
theorem parse_changelog_matches_spec (body : List Char) :
    parse_changelog body = parse_changelog_spec body := by
  unfold parse_changelog parse_changelog_spec
  rw [changelogLoop_foldl (splitNL body) false []]
  simp [List.isEmpty_iff]


theorem pyStrip_length_le (l : List Char) : (pyStrip l).length ≤ l.length := by
  unfold pyStrip
  calc ((l.dropWhile isWS).reverse.dropWhile isWS).reverse.length
      = ((l.dropWhile isWS).reverse.dropWhile isWS).length := List.length_reverse _
    _ ≤ (l.dropWhile isWS).reverse.length := (List.dropWhile_suffix isWS).length_le
    _ = (l.dropWhile isWS).length := List.length_reverse _
    _ ≤ l.length := (List.dropWhile_suffix isWS).length_le


theorem pyStrip_eq_self_parts (l : List Char) (h : pyStrip l = l) :
    l.dropWhile isWS = l ∧ l.reverse.dropWhile isWS = l.reverse := by
  have hlen : ((l.dropWhile isWS).reverse.dropWhile isWS).reverse.length = l.length := by
    rw [pyStrip] at h; rw [h]
  have h1 : (l.dropWhile isWS).length ≤ l.length := (List.dropWhile_suffix isWS).length_le
  have h2 : ((l.dropWhile isWS).reverse.dropWhile isWS).length ≤ (l.dropWhile isWS).length := by
    calc ((l.dropWhile isWS).reverse.dropWhile isWS).length
        ≤ (l.dropWhile isWS).reverse.length := (List.dropWhile_suffix isWS).length_le
      _ = (l.dropWhile isWS).length := List.length_reverse _
  rw [List.length_reverse] at hlen
  have hd : (l.dropWhile isWS).length = l.length := by omega
  have hdw : l.dropWhile isWS = l := (List.dropWhile_suffix isWS).eq_of_length hd
  constructor
  · exact hdw
  · rw [hdw] at hlen h2
    have : l.reverse.dropWhile isWS = l.reverse := by
      refine (List.dropWhile_suffix isWS).eq_of_length ?_
      rw [List.length_reverse]
      omega
    exact this


theorem dropWhile_eq_self_head {x : List Char} {c : Char}
    (h : x.dropWhile isWS = x) (hx : x.head? = some c) : isWS c = false := by
  cases x with
  | nil => simp at hx
  | cons a r =>
    simp at hx
    subst hx
    by_contra hws
    simp at hws
    rw [List.dropWhile_cons, if_pos hws] at h
    have := (List.dropWhile_suffix (l := r) isWS).length_le
    rw [h] at this
    simp at this


theorem goodLine_head_not_ws {maxLength : Nat} {l : List Char} (h : goodLine maxLength l)
    {c : Char} (hc : l.head? = some c) : isWS c = false :=
  dropWhile_eq_self_head (pyStrip_eq_self_parts l h.2.1).1 hc


theorem goodLine_last_not_ws {maxLength : Nat} {l : List Char} (h : goodLine maxLength l)
    {c : Char} (hc : l.getLast? = some c) : isWS c = false := by
  refine dropWhile_eq_self_head (pyStrip_eq_self_parts l h.2.1).2 ?_
  rw [List.head?_reverse]
  exact hc


theorem joinLines_cons (l : List Char) (rest : List (List Char)) :
    joinLines (l :: rest) = l ++ (if rest.isEmpty then [] else '\n' :: joinLines rest) := by
  cases rest with
  | nil => simp [joinLines]
  | cons l2 rest2 => rw [joinLines_cons_cons]; simp


theorem joinLines_ne_nil {ls : List (List Char)} (h : ls ≠ [])
    (hhd : ∀ l ∈ ls, l ≠ []) : joinLines ls ≠ [] := by
  cases ls with
  | nil => exact absurd rfl h
  | cons l rest =>
    rw [joinLines_cons]
    have : l ≠ [] := hhd l (by simp)
    simp [this]


theorem joinLines_concat (ls : List (List Char)) (l : List Char) (h : ls ≠ []) :
    joinLines (ls ++ [l]) = joinLines ls ++ '\n' :: l := by
  induction ls with
  | nil => exact absurd rfl h
  | cons x rest ih =>
    cases rest with
    | nil => simp [joinLines]
    | cons y rest2 =>
      have ih2 := ih (by simp)
      rw [List.cons_append] at ih2
      rw [List.cons_append, List.cons_append, joinLines_cons_cons, ih2, joinLines_cons_cons]
      simp


theorem joinLines_append (a b : List (List Char)) (ha : a ≠ []) (hb : b ≠ []) :
    joinLines (a ++ b) = joinLines a ++ '\n' :: joinLines b := by
  induction a with
  | nil => exact absurd rfl ha
  | cons x rest ih =>
    cases rest with
    | nil =>
      cases b with
      | nil => exact absurd rfl hb
      | cons y rest2 => rw [List.singleton_append, joinLines_cons_cons]; simp [joinLines]
    | cons y rest2 =>
      have ih2 := ih (by simp)
      rw [List.cons_append] at ih2
      rw [List.cons_append, List.cons_append, joinLines_cons_cons, ih2, joinLines_cons_cons]
      simp


theorem getLast?_joinLines (ls : List (List Char)) (h : ls ≠ [])
    (hne : ∀ l ∈ ls, l ≠ []) :
    (joinLines ls).getLast? = (ls.getLast h).getLast? := by
  induction ls with
  | nil => exact absurd rfl h
  | cons l rest ih =>
    cases rest with
    | nil => simp [joinLines]
    | cons l2 rest2 =>
      rw [joinLines_cons_cons]
      have hj : joinLines (l2 :: rest2) ≠ [] :=
        joinLines_ne_nil (by simp) (fun x hx => hne x (by simp [hx]))
      rw [List.getLast?_append_of_ne_nil _ (by simp)]
      have h2 : ('\n' :: joinLines (l2 :: rest2)).getLast? = (joinLines (l2 :: rest2)).getLast? := by
        have e : '\n' :: joinLines (l2 :: rest2) = ['\n'] ++ joinLines (l2 :: rest2) := by simp
        rw [e, List.getLast?_append_of_ne_nil _ hj]
      rw [h2, ih (by simp) (fun x hx => hne x (by simp [hx]))]
      have hg : (l :: l2 :: rest2).getLast h = (l2 :: rest2).getLast (by simp) :=
        List.getLast_cons (by simp)
      rw [hg]


theorem dropWhile_eq_self_of_head (x : List Char)
    (h : ∀ c, x.head? = some c → isWS c = false) : x.dropWhile isWS = x := by
  cases x with
  | nil => rfl
  | cons a r =>
    have ha := h a rfl
    simp [List.dropWhile_cons, ha]


/-- Stripping a buffer `joinLines cur ++ ['\n']` built from chunkable
lines removes exactly the trailing newline. -/
theorem pyStrip_buffer (maxLength : Nat) (cur : List (List Char)) (h : cur ≠ [])
    (hgood : ∀ l ∈ cur, goodLine maxLength l) :
    pyStrip (joinLines cur ++ ['\n']) = joinLines cur := by
  have hne : ∀ l ∈ cur, l ≠ [] := fun l hl => (hgood l hl).1
  have hjne : joinLines cur ≠ [] := joinLines_ne_nil h hne
  obtain ⟨l0, rest, rfl⟩ : ∃ l0 rest, cur = l0 :: rest := by
    cases cur with
    | nil => exact absurd rfl h
    | cons a b => exact ⟨a, b, rfl⟩
  have hl0 : l0 ≠ [] := hne l0 (by simp)
  have hg0 : goodLine maxLength l0 := hgood l0 (by simp)
  have hleft : (joinLines (l0 :: rest) ++ ['\n']).dropWhile isWS
      = joinLines (l0 :: rest) ++ ['\n'] := by
    apply dropWhile_eq_self_of_head
    intro c hc
    rw [List.head?_append_of_ne_nil _ hjne, joinLines_cons,
        List.head?_append_of_ne_nil _ hl0] at hc
    exact goodLine_head_not_ws hg0 hc
  have hcons : (l0 :: rest) ≠ [] := by simp
  have hright : ((joinLines (l0 :: rest) ++ ['\n']).reverse).dropWhile isWS
      = (joinLines (l0 :: rest)).reverse := by
    rw [List.reverse_append]
    simp only [List.reverse_cons, List.reverse_nil, List.nil_append, List.singleton_append]
    rw [List.dropWhile_cons]
    rw [if_pos (by decide : isWS '\n' = true)]
    apply dropWhile_eq_self_of_head
    intro c hc
    rw [List.head?_reverse] at hc
    rw [getLast?_joinLines (l0 :: rest) hcons hne] at hc
    exact goodLine_last_not_ws (hgood ((l0 :: rest).getLast hcons) (List.getLast_mem hcons)) hc
  unfold pyStrip
  rw [hleft, hright, List.reverse_reverse]


theorem split_loop_nil (maxLength : Nat) (current : List Char) :
    split_loop maxLength [] current = if current.isEmpty then [] else [pyStrip current] := rfl


theorem split_loop_cons (maxLength : Nat) (line : List Char) (rest : List (List Char))
    (current : List Char) :
    split_loop maxLength (line :: rest) current =
      if current.length + line.length + 1 ≤ maxLength then
        split_loop maxLength rest (current ++ line ++ ['\n'])
      else if current.isEmpty then
        split_loop maxLength rest (line ++ ['\n'])
      else
        pyStrip current :: split_loop maxLength rest (line ++ ['\n']) := rfl


/-- Invariant of the `split_content` loop: started on a buffer holding the
chunkable lines `cur` (each pending line also chunkable), the loop emits
chunks that are exactly newline-joins of consecutive groups of the
remaining lines, each group fitting the limit. -/
theorem split_loop_spec (maxLength : Nat) (lines : List (List Char)) :
    ∀ cur : List (List Char), cur ≠ [] →
      (∀ l ∈ cur ++ lines, goodLine maxLength l ∧ '\n' ∉ l) →
      (joinLines cur).length + 1 ≤ maxLength →
      ∃ groups : List (List (List Char)),
        split_loop maxLength lines (joinLines cur ++ ['\n']) = groups.map joinLines ∧
        groups.flatten = cur ++ lines ∧
        ∀ g ∈ groups, g ≠ [] ∧ (joinLines g).length + 1 ≤ maxLength := by
  induction lines with
  | nil =>
    intro cur hcur hgood hlen
    refine ⟨[cur], ?_, by simp, ?_⟩
    · rw [split_loop_nil]
      rw [if_neg (by simp)]
      rw [pyStrip_buffer maxLength cur hcur (fun l hl => (hgood l (by simp [hl])).1)]
      simp
    · intro g hg
      simp at hg
      subst hg
      exact ⟨hcur, hlen⟩
  | cons line rest ih =>
    intro cur hcur hgood hlen
    have hgline : goodLine maxLength line := (hgood line (by simp)).1
    rw [split_loop_cons]
    by_cases hfit : (joinLines cur ++ ['\n']).length + line.length + 1 ≤ maxLength
    · rw [if_pos hfit]
      have hbe : (joinLines cur ++ ['\n']) ++ line ++ ['\n']
          = joinLines (cur ++ [line]) ++ ['\n'] := by
        rw [joinLines_concat cur line hcur]
        simp
      rw [hbe]
      have hgood2 : ∀ l ∈ (cur ++ [line]) ++ rest, goodLine maxLength l ∧ '\n' ∉ l := by
        intro l hl
        apply hgood
        simp at hl ⊢
        tauto
      have hlen2 : (joinLines (cur ++ [line])).length + 1 ≤ maxLength := by
        rw [joinLines_concat cur line hcur]
        simp at hfit ⊢
        omega
      obtain ⟨groups, h1, h2, h3⟩ := ih (cur ++ [line]) (by simp) hgood2 hlen2
      refine ⟨groups, h1, ?_, h3⟩
      rw [h2]
      simp
    · rw [if_neg hfit, if_neg (by simp)]
      rw [pyStrip_buffer maxLength cur hcur (fun l hl => (hgood l (by simp [hl])).1)]
      have hbe : line ++ ['\n'] = joinLines [line] ++ ['\n'] := by simp [joinLines]
      rw [hbe]
      have hgood2 : ∀ l ∈ [line] ++ rest, goodLine maxLength l ∧ '\n' ∉ l := by
        intro l hl
        apply hgood
        simp at hl ⊢
        tauto
      have hlen2 : (joinLines [line]).length + 1 ≤ maxLength := by
        simpa [joinLines] using hgline.2.2
      obtain ⟨groups, h1, h2, h3⟩ := ih [line] (by simp) hgood2 hlen2
      refine ⟨cur :: groups, ?_, ?_, ?_⟩
      · rw [List.map_cons, h1]
      · rw [List.flatten_cons, h2]
        simp
      · intro g hg
        simp at hg
        rcases hg with hg | hg
        · subst hg; exact ⟨hcur, hlen⟩
        · exact h3 g hg


theorem split_content_groups (content : List Char) (maxLength : Nat)
    (hlong : maxLength < content.length)
    (hgood : ∀ l ∈ splitNL content, goodLine maxLength l) :
    ∃ groups : List (List (List Char)),
      split_content content maxLength = groups.map joinLines ∧
      groups.flatten = splitNL content ∧
      ∀ g ∈ groups, g ≠ [] ∧ (joinLines g).length + 1 ≤ maxLength := by
  unfold split_content
  rw [if_neg (by omega)]
  rcases hsp : splitNL content with _ | ⟨l0, ls⟩
  · exact absurd hsp (splitNL_ne_nil content)
  have hgood2 : ∀ l ∈ l0 :: ls, goodLine maxLength l ∧ '\n' ∉ l := by
    intro l hl
    exact ⟨hgood l (by rw [hsp]; exact hl),
           mem_splitNL_no_newline content l (by rw [hsp]; exact hl)⟩
  have hg0 : goodLine maxLength l0 := (hgood2 l0 (by simp)).1
  rw [split_loop_cons]
  rw [if_pos (by simpa using hg0.2.2)]
  have hbe : ([] : List Char) ++ l0 ++ ['\n'] = joinLines [l0] ++ ['\n'] := by
    simp [joinLines]
  rw [hbe]
  obtain ⟨groups, h1, h2, h3⟩ := split_loop_spec maxLength ls [l0] (by simp)
      (by simpa using hgood2) (by simpa [joinLines] using hg0.2.2)
  exact ⟨groups, h1, by rw [h2]; simp, h3⟩


theorem joinLines_map_joinLines (groups : List (List (List Char)))
    (h : ∀ g ∈ groups, g ≠ [] ∧ ∀ l ∈ g, l ≠ []) :
    joinLines (groups.map joinLines) = joinLines groups.flatten := by
  induction groups with
  | nil => rfl
  | cons g rest ih =>
    cases rest with
    | nil => simp [joinLines]
    | cons g2 rest2 =>
      have hg : g ≠ [] := (h g (by simp)).1
      have hg2 : g2 ≠ [] := (h g2 (by simp)).1
      have hfl : (g2 :: rest2).flatten ≠ [] := by
        rw [List.flatten_cons]
        intro hnil
        exact hg2 (List.append_eq_nil.mp hnil).1
      rw [List.map_cons, List.map_cons, joinLines_cons_cons, ← List.map_cons,
        ih (fun x hx => h x (by simp [hx]))]
      conv_rhs => rw [List.flatten_cons]
      rw [joinLines_append g ((g2 :: rest2).flatten) hg hfl]


/-- C2 counterexample: a single line longer than the limit is returned as
one oversized chunk, so the claim's "at least 2 chunks, each within the
limit" part fails on the input `"aaaa"` with limit 3 (the code returns
the single chunk `"aaaa"` of length 4). -/
theorem splitContentClaim_counterexample : ¬ splitContentClaim ['a', 'a', 'a', 'a'] 3 := by
  unfold splitContentClaim
  decide


/-- C2 (corrected).  Chunking postcondition under the amendment that every
line of the input is chunkable (non-blank, no surrounding whitespace, and
fitting the limit together with its newline separator): if the text fits
the limit the result is exactly `[content]`; otherwise there are at least
2 chunks, each chunk's length is at most the limit, no chunk boundary
splits a line, and concatenating the chunks with newlines reinserted
reproduces the input (hence all its lines, in order). -/
theorem split_content_amended (content : List Char) (maxLength : Nat)
    (hgood : ∀ l ∈ splitNL content, goodLine maxLength l) :
    (content.length ≤ maxLength → split_content content maxLength = [content]) ∧
    (maxLength < content.length →
      2 ≤ (split_content content maxLength).length ∧
      (∀ c ∈ split_content content maxLength, c.length ≤ maxLength) ∧
      joinLines (split_content content maxLength) = content ∧
      ((split_content content maxLength).map splitNL).flatten = splitNL content) := by
  constructor
  · intro hfits
    simp [split_content, hfits]
  · intro hlong
    obtain ⟨groups, h1, h2, h3⟩ := split_content_groups content maxLength hlong hgood
    have hmemflat : ∀ g ∈ groups, ∀ l ∈ g, l ∈ splitNL content := by
      intro g hg l hl
      rw [← h2]
      exact List.mem_flatten.mpr ⟨g, hg, hl⟩
    have hlens : ∀ c ∈ split_content content maxLength, c.length ≤ maxLength := by
      intro c hc
      rw [h1] at hc
      simp at hc
      obtain ⟨g, hg, rfl⟩ := hc
      have := (h3 g hg).2
      omega
    have hnn : ∀ g ∈ groups, g ≠ [] ∧ ∀ l ∈ g, l ≠ [] := by
      intro g hg
      exact ⟨(h3 g hg).1, fun l hl => (hgood l (hmemflat g hg l hl)).1⟩
    have hjoin : joinLines (split_content content maxLength) = content := by
      rw [h1, joinLines_map_joinLines groups hnn, h2, joinLines_splitNL]
    have hsplit : ((split_content content maxLength).map splitNL).flatten = splitNL content := by
      rw [h1, List.map_map]
      have : groups.map (splitNL ∘ joinLines) = groups.map id := by
        apply List.map_congr_left
        intro g hg
        simp only [Function.comp_apply, id]
        exact splitNL_joinLines g (h3 g hg).1
          (fun l hl => mem_splitNL_no_newline content l (hmemflat g hg l hl))
      rw [this, List.map_id, h2]
    refine ⟨?_, hlens, hjoin, hsplit⟩
    rcases hchunks : split_content content maxLength with _ | ⟨c, cs⟩
    · rw [hchunks] at hjoin
      have : content = [] := by simpa [joinLines] using hjoin.symm
      rw [this] at hlong
      simp at hlong
    · cases cs with
      | nil =>
        rw [hchunks] at hjoin hlens
        have hc : c = content := by simpa [joinLines] using hjoin
        have := hlens c (by simp)
        rw [hc] at this
        omega
      | cons c2 cs2 => simp


/-- Witness for the amended C2 theorem at a concrete two-line input. -/
theorem split_content_amended_witness :
    (∀ l ∈ splitNL ['a', 'b', '\n', 'c'], goodLine 10 l) ∧
    (((['a', 'b', '\n', 'c'] : List Char).length ≤ 10 →
        split_content ['a', 'b', '\n', 'c'] 10 = [['a', 'b', '\n', 'c']]) ∧
      (10 < (['a', 'b', '\n', 'c'] : List Char).length →
        2 ≤ (split_content ['a', 'b', '\n', 'c'] 10).length ∧
        (∀ c ∈ split_content ['a', 'b', '\n', 'c'] 10, c.length ≤ 10) ∧
        joinLines (split_content ['a', 'b', '\n', 'c'] 10) = ['a', 'b', '\n', 'c'] ∧
        ((split_content ['a', 'b', '\n', 'c'] 10).map splitNL).flatten =
          splitNL ['a', 'b', '\n', 'c'])) :=
  ⟨by decide, split_content_amended ['a', 'b', '\n', 'c'] 10 (by decide)⟩


/-! ### Equivalence of the fused and per-pass header rewriting -/

theorem startsWith_append (p t : List Char) : startsWith p (p ++ t) = true := by
  induction p with
  | nil => rfl
  | cons c cs ih => simp [startsWith, ih]


theorem startsWith_eq_append {p l : List Char} (h : startsWith p l = true) :
    l = p ++ l.drop p.length := by
  induction p generalizing l with
  | nil => simp
  | cons c cs ih =>
    cases l with
    | nil => simp [startsWith] at h
    | cons d ds =>
      simp only [startsWith, Bool.and_eq_true, decide_eq_true_eq] at h
      obtain ⟨rfl, h2⟩ := h
      simpa using ih h2


theorem headerLine_pos (pre wrapL wrapR l : List Char) (h : startsWith pre l = true) :
    headerLine pre wrapL wrapR l = wrapL ++ l.drop pre.length ++ wrapR := by
  unfold headerLine
  rw [if_pos h]


theorem headerLine_neg (pre wrapL wrapR l : List Char) (h : ¬ startsWith pre l = true) :
    headerLine pre wrapL wrapR l = l := by
  unfold headerLine
  rw [if_neg h]


theorem headerLine_no_newline (pre wrapL wrapR l : List Char) (hwl : '\n' ∉ wrapL)
    (hwr : '\n' ∉ wrapR) (hl : '\n' ∉ l) : '\n' ∉ headerLine pre wrapL wrapR l := by
  unfold headerLine
  split
  · intro hmem
    simp at hmem
    rcases hmem with h | h | h
    · exact hwl h
    · exact hl (List.drop_subset _ _ h)
    · exact hwr h
  · exact hl


theorem subHeader_joinLines (pre wrapL wrapR : List Char) (ls : List (List Char))
    (hne : ls ≠ []) (hnl : ∀ l ∈ ls, '\n' ∉ l) :
    subHeader pre wrapL wrapR (joinLines ls) = joinLines (ls.map (headerLine pre wrapL wrapR)) := by
  unfold subHeader
  rw [splitNL_joinLines ls hne hnl]


/-- The three sequential header passes of `markdown_to_discord` act as a
single map over the lines of the input. -/
theorem markdown_fused (content : List Char) :
    markdown_to_discord content =
      collapseNL (joinLines ((splitNL content).map
        (headerLine h1Marker uboldL uboldR ∘ headerLine h2Marker uboldL uboldR ∘
          headerLine h3Marker boldMark boldMark))) := by
  unfold markdown_to_discord subCodeFence
  have e3 : subHeader h3Marker boldMark boldMark content =
      joinLines ((splitNL content).map (headerLine h3Marker boldMark boldMark)) := rfl
  rw [e3]
  have hnl3 : ∀ l ∈ (splitNL content).map (headerLine h3Marker boldMark boldMark), '\n' ∉ l := by
    intro l hl
    simp at hl
    obtain ⟨x, hx, rfl⟩ := hl
    exact headerLine_no_newline _ _ _ _ (by decide) (by decide)
      (mem_splitNL_no_newline content x hx)
  rw [subHeader_joinLines h2Marker uboldL uboldR _
      (by simpa using splitNL_ne_nil content) hnl3, List.map_map]
  have hnl2 : ∀ l ∈ (splitNL content).map
      (headerLine h2Marker uboldL uboldR ∘ headerLine h3Marker boldMark boldMark), '\n' ∉ l := by
    intro l hl
    simp at hl
    obtain ⟨x, hx, rfl⟩ := hl
    exact headerLine_no_newline _ _ _ _ (by decide) (by decide)
      (headerLine_no_newline _ _ _ _ (by decide) (by decide)
        (mem_splitNL_no_newline content x hx))
  rw [subHeader_joinLines h1Marker uboldL uboldR _
      (by simpa using splitNL_ne_nil content) hnl2, List.map_map]


/-- The composition of the three header passes on a single line agrees
with the one-pass spec rewriting. -/
theorem headerLine_chain (line : List Char) :
    headerLine h1Marker uboldL uboldR (headerLine h2Marker uboldL uboldR
      (headerLine h3Marker boldMark boldMark line)) = headerLineSpec line := by
  by_cases s1 : startsWith h1Marker line = true
  · obtain ⟨t, ht⟩ : ∃ t, line = h1Marker ++ t := ⟨_, startsWith_eq_append s1⟩
    subst ht
    have s3 : ¬ startsWith h3Marker (h1Marker ++ t) = true := by
      simp [startsWith, h3Marker, h1Marker]
    have s2 : ¬ startsWith h2Marker (h1Marker ++ t) = true := by
      simp [startsWith, h2Marker, h1Marker]
    rw [headerLine_neg _ _ _ _ s3, headerLine_neg _ _ _ _ s2,
      headerLine_pos _ _ _ _ s1, List.drop_left]
    unfold headerLineSpec
    rw [if_pos s1]
    simp [h1Marker]
  · by_cases s2 : startsWith h2Marker line = true
    · obtain ⟨t, ht⟩ : ∃ t, line = h2Marker ++ t := ⟨_, startsWith_eq_append s2⟩
      subst ht
      have s3 : ¬ startsWith h3Marker (h2Marker ++ t) = true := by
        simp [startsWith, h3Marker, h2Marker]
      rw [headerLine_neg _ _ _ _ s3, headerLine_pos _ _ _ _ s2, List.drop_left]
      have s1b : ¬ startsWith h1Marker (uboldL ++ t ++ uboldR) = true := by
        simp [startsWith, h1Marker, uboldL]
      rw [headerLine_neg _ _ _ _ s1b]
      unfold headerLineSpec
      rw [if_neg s1, if_pos s2]
      simp [h2Marker]
    · by_cases s3 : startsWith h3Marker line = true
      · obtain ⟨t, ht⟩ : ∃ t, line = h3Marker ++ t := ⟨_, startsWith_eq_append s3⟩
        subst ht
        rw [headerLine_pos _ _ _ _ s3, List.drop_left]
        have s2b : ¬ startsWith h2Marker (boldMark ++ t ++ boldMark) = true := by
          simp [startsWith, h2Marker, boldMark]
        have s1b : ¬ startsWith h1Marker (boldMark ++ t ++ boldMark) = true := by
          simp [startsWith, h1Marker, boldMark]
        rw [headerLine_neg _ _ _ _ s2b, headerLine_neg _ _ _ _ s1b]
        unfold headerLineSpec
        rw [if_neg s1, if_neg s2, if_pos s3]
        simp [h3Marker]
      · rw [headerLine_neg _ _ _ _ s3, headerLine_neg _ _ _ _ s2,
          headerLine_neg _ _ _ _ s1]
        unfold headerLineSpec
        rw [if_neg s1, if_neg s2, if_neg s3]


/-- C6 (confirmed).  Markdown adaptation: for every input text, a line
beginning with one or two marker characters plus a space is rewritten to
underlined-bold emphasis around the remainder, a line beginning with three
marker characters plus a space is rewritten to bold-only emphasis (so
`"# Title"` becomes `"__**Title**__"` and `"### Sub"` becomes
`"**Sub**"`), and every run of three or more consecutive newlines
collapses to exactly two. -/
theorem markdown_eq_spec (content : List Char) :
    markdown_to_discord content = markdown_to_discord_spec content := by
  rw [markdown_fused]
  unfold markdown_to_discord_spec
  congr 1
  congr 1
  exact List.map_congr_left (fun l _ => headerLine_chain l)


theorem markdown_to_discord_matches_spec (content : List Char) :
    markdown_to_discord content = markdown_to_discord_spec content :=
  markdown_eq_spec content


theorem hasTripleNL_tail {c : Char} {z : List Char} (h : hasTripleNL (c :: z) = false) :
    hasTripleNL z = false := by
  cases z with
  | nil => rfl
  | cons b t =>
    cases t with
    | nil => rfl
    | cons d t2 =>
      rw [hasTripleNL] at h
      exact (Bool.or_eq_false_iff.mp h).2


theorem hasTripleNL_cons {c : Char} {z : List Char} (hz : hasTripleNL z = false)
    (hc : c ≠ '\n') : hasTripleNL (c :: z) = false := by
  cases z with
  | nil => rfl
  | cons b t =>
    cases t with
    | nil => rfl
    | cons d t2 =>
      rw [hasTripleNL, hz]
      simp [hc]


theorem hasTripleNL_suffix {a b : List Char} (hs : a <:+ b)
    (hb : hasTripleNL b = false) : hasTripleNL a = false := by
  obtain ⟨pre, rfl⟩ := hs
  induction pre with
  | nil => simpa using hb
  | cons c cs ih =>
    rw [List.cons_append] at hb
    exact ih (hasTripleNL_tail hb)


theorem dropWhile_head_false (p : Char → Bool) (l : List Char) :
    ∀ c, (l.dropWhile p).head? = some c → p c = false := by
  induction l with
  | nil => intro c hc; simp at hc
  | cons a rest ih =>
    intro c hc
    rw [List.dropWhile_cons] at hc
    by_cases hp : p a
    · rw [if_pos hp] at hc
      exact ih c hc
    · rw [if_neg hp] at hc
      simp at hc
      subst hc
      simpa using hp


theorem collapseNL_nil : collapseNL [] = [] := by
  rw [collapseNL]


theorem collapseNL_head? (l : List Char) : (collapseNL l).head? = l.head? := by
  cases l with
  | nil => rw [collapseNL_nil]
  | cons c rest =>
    by_cases hc : c = '\n'
    · subst hc
      rw [collapseNL, if_pos rfl]
      split
      · rfl
      · rfl
    · rw [collapseNL, if_neg hc]
      rfl


theorem hasTripleNL_one_nl {w : List Char} (hw : hasTripleNL w = false)
    (hhd : ∀ c, w.head? = some c → c ≠ '\n') : hasTripleNL ('\n' :: w) = false := by
  cases w with
  | nil => rfl
  | cons e t =>
    have he : e ≠ '\n' := hhd e rfl
    cases t with
    | nil => rfl
    | cons f t2 =>
      rw [hasTripleNL, hw]
      simp [he]


theorem hasTripleNL_two_nl {w : List Char} (hw : hasTripleNL w = false)
    (hhd : ∀ c, w.head? = some c → c ≠ '\n') : hasTripleNL ('\n' :: '\n' :: w) = false := by
  cases w with
  | nil => rfl
  | cons e t =>
    have he : e ≠ '\n' := hhd e rfl
    rw [hasTripleNL, hasTripleNL_one_nl hw hhd]
    simp [he]


/-- The collapsed text never contains a triple-newline run. -/
theorem hasTripleNL_collapseNL (l : List Char) : hasTripleNL (collapseNL l) = false := by
  induction l using collapseNL.induct with
  | case1 => rw [collapseNL_nil]; rfl
  | case2 rest ih =>
    rw [collapseNL, if_pos rfl]
    have hhd : ∀ c, (collapseNL (rest.dropWhile (fun d => d = '\n'))).head? = some c →
        c ≠ '\n' := by
      intro c hc
      rw [collapseNL_head?] at hc
      have := dropWhile_head_false (fun d => d = '\n') rest c hc
      simpa using this
    split
    · exact hasTripleNL_two_nl ih hhd
    · rename_i hlen
      rcases hrun : rest.takeWhile (fun d => d = '\n') with _ | ⟨r1, rrest⟩
      · simpa using hasTripleNL_one_nl ih hhd
      · have hr1 : r1 = '\n' := by
          have hm : r1 ∈ rest.takeWhile (fun d => d = '\n') := by rw [hrun]; simp
          simpa using List.mem_takeWhile_imp hm
        subst hr1
        cases rrest with
        | nil => simpa using hasTripleNL_two_nl ih hhd
        | cons r2 rrest2 =>
          exfalso
          rw [hrun] at hlen
          simp at hlen
  | case3 c rest hc ih =>
    rw [collapseNL, if_neg hc]
    exact hasTripleNL_cons ih hc


/-- Collapsing is the identity on already-collapsed text. -/
theorem collapseNL_of_no_triple {l : List Char} (h : hasTripleNL l = false) :
    collapseNL l = l := by
  induction l using collapseNL.induct with
  | case1 => rw [collapseNL_nil]
  | case2 rest ih =>
    rw [collapseNL, if_pos rfl]
    rcases hrun : rest.takeWhile (fun d => d = '\n') with _ | ⟨r1, rrest⟩
    · have hdw : rest.dropWhile (fun d => d = '\n') = rest := by
        conv_rhs => rw [← List.takeWhile_append_dropWhile (p := fun d => d = '\n') (l := rest),
          hrun]
        simp
      simp only [List.length_nil]
      rw [if_neg (by omega)]
      rw [hdw] at ih ⊢
      rw [ih (hasTripleNL_tail h)]
      simp
    · have hr1 : r1 = '\n' := by
        have hm : r1 ∈ rest.takeWhile (fun d => d = '\n') := by rw [hrun]; simp
        simpa using List.mem_takeWhile_imp hm
      subst hr1
      cases rrest with
      | nil =>
        have hsplit : rest = '\n' :: rest.dropWhile (fun d => d = '\n') := by
          conv_lhs => rw [← List.takeWhile_append_dropWhile (p := fun d => d = '\n') (l := rest),
            hrun]
          simp
        simp only [List.length_cons, List.length_nil]
        rw [if_neg (by omega)]
        have hrest2 : hasTripleNL (rest.dropWhile (fun d => d = '\n')) = false :=
          hasTripleNL_suffix (List.dropWhile_suffix _) (hasTripleNL_tail h)
        rw [ih hrest2]
        conv_rhs => rw [hsplit]
        simp
      | cons r2 rrest2 =>
        exfalso
        have hr2 : r2 = '\n' := by
          have hm : r2 ∈ rest.takeWhile (fun d => d = '\n') := by rw [hrun]; simp
          simpa using List.mem_takeWhile_imp hm
        subst hr2
        have hpre : rest.takeWhile (fun d => d = '\n') <+: rest := List.takeWhile_prefix _
        rw [hrun] at hpre
        obtain ⟨t, ht⟩ := hpre
        rw [← ht] at h
        simp only [List.cons_append] at h
        rw [hasTripleNL] at h
        simp at h
  | case3 c rest hc ih =>
    rw [collapseNL, if_neg hc]
    rw [ih (hasTripleNL_tail h)]


/-- Collapsing newline runs is idempotent. -/
theorem collapseNL_idem (l : List Char) : collapseNL (collapseNL l) = collapseNL l :=
  collapseNL_of_no_triple (hasTripleNL_collapseNL l)


theorem splitNL_replicate_nl (m : Nat) (w : List Char) :
    splitNL (List.replicate m '\n' ++ w) = List.replicate m [] ++ splitNL w := by
  induction m with
  | zero => simp
  | succ n ih =>
    rw [List.replicate_succ, List.cons_append, splitNL_cons_nl, ih, List.replicate_succ,
      List.cons_append]


theorem mem_of_mem_tail_list {α : Type} {a : α} {xs : List α} (h : a ∈ xs.tail) : a ∈ xs := by
  cases xs with
  | nil => simp at h
  | cons x t => simp at h ⊢; exact Or.inr h


/-- Core step for the collapse/line-membership argument: prepending any
positive number of blank lines on both sides preserves the
head-equality-plus-tail-membership relation between line lists. -/
theorem replicate_blank_step (m k : Nat) (A B : List (List Char)) (hm : 1 ≤ m) (hk : 1 ≤ k)
    (hA : A ≠ []) (hB : B ≠ []) (hhd : A.head? = B.head?)
    (htl : ∀ l ∈ A.tail, l = [] ∨ l ∈ B.tail) :
    (List.replicate m ([] : List Char) ++ A).head? = (List.replicate k ([] : List Char) ++ B).head? ∧
    ∀ l ∈ (List.replicate m ([] : List Char) ++ A).tail,
      l = [] ∨ l ∈ (List.replicate k ([] : List Char) ++ B).tail := by
  obtain ⟨m2, rfl⟩ : ∃ m2, m = m2 + 1 := ⟨m - 1, by omega⟩
  obtain ⟨k2, rfl⟩ : ∃ k2, k = k2 + 1 := ⟨k - 1, by omega⟩
  rw [List.replicate_succ, List.replicate_succ, List.cons_append, List.cons_append]
  refine ⟨rfl, ?_⟩
  intro l hl
  simp only [List.tail_cons] at hl
  rcases List.mem_append.mp hl with hrep | hmem
  · exact Or.inl (List.eq_of_mem_replicate hrep)
  · rcases hAd : A with _ | ⟨a0, arest⟩
    · exact absurd hAd hA
    · rw [hAd] at hmem hhd htl
      rcases hBd : B with _ | ⟨b0, brest⟩
      · exact absurd hBd hB
      · rw [hBd] at hhd htl
        simp at hhd
        simp only [List.mem_cons] at hmem
        rcases hmem with rfl | hmem
        · right
          subst hhd
          simp
        · rcases htl l (by simpa using hmem) with h | h
          · exact Or.inl h
          · right
            simp only [List.tail_cons]
            exact List.mem_append_right _ (mem_of_mem_tail_list (by simpa using h))


/-- Every line of the collapsed text is either blank or a line of the
original text; moreover the first line is preserved. -/
theorem splitNL_collapseNL (y : List Char) :
    (splitNL (collapseNL y)).head? = (splitNL y).head? ∧
    ∀ l ∈ (splitNL (collapseNL y)).tail, l = [] ∨ l ∈ (splitNL y).tail := by
  induction y using collapseNL.induct with
  | case1 => rw [collapseNL_nil]; exact ⟨rfl, by simp [splitNL]⟩
  | case2 rest ih =>
    obtain ⟨ihh, iht⟩ := ih
    rw [collapseNL, if_pos rfl]
    have hrunrep : rest.takeWhile (fun d => d = '\n') =
        List.replicate (rest.takeWhile (fun d => d = '\n')).length '\n' :=
      List.eq_replicate_of_mem (fun b hb => by simpa using List.mem_takeWhile_imp hb)
    have hy : '\n' :: rest =
        List.replicate ((rest.takeWhile (fun d => d = '\n')).length + 1) '\n' ++
          rest.dropWhile (fun d => d = '\n') := by
      conv_lhs =>
        rw [show rest = rest.takeWhile (fun d => d = '\n') ++
            rest.dropWhile (fun d => d = '\n') from
          (List.takeWhile_append_dropWhile (fun d => d = '\n') rest).symm]
      conv_lhs => rw [hrunrep]
      rw [List.replicate_succ, List.cons_append]
    have hblock : ∃ m, 1 ≤ m ∧
        (if 3 ≤ (rest.takeWhile (fun d => d = '\n')).length + 1 then ['\n', '\n']
         else '\n' :: rest.takeWhile (fun d => d = '\n')) = List.replicate m '\n' := by
      split
      · exact ⟨2, by omega, rfl⟩
      · refine ⟨(rest.takeWhile (fun d => d = '\n')).length + 1, by omega, ?_⟩
        conv_lhs => rw [hrunrep]
        rw [List.replicate_succ]
    obtain ⟨m, hm, hbeq⟩ := hblock
    rw [hbeq, splitNL_replicate_nl, hy, splitNL_replicate_nl]
    exact replicate_blank_step m _ _ _ hm (by omega) (splitNL_ne_nil _) (splitNL_ne_nil _)
      ihh iht
  | case3 c rest hc ih =>
    obtain ⟨ihh, iht⟩ := ih
    rw [collapseNL, if_neg hc]
    rcases hx : splitNL (collapseNL rest) with _ | ⟨x, xs⟩
    · exact absurd hx (splitNL_ne_nil _)
    rcases hx2 : splitNL rest with _ | ⟨x2, xs2⟩
    · exact absurd hx2 (splitNL_ne_nil _)
    rw [hx, hx2] at ihh iht
    simp at ihh
    subst ihh
    rw [splitNL_cons_ne c _ hc, hx, splitNL_cons_ne c _ hc, hx2]
    exact ⟨rfl, by simpa using iht⟩


theorem headerLineSpec_nil : headerLineSpec [] = [] := by
  unfold headerLineSpec
  simp [startsWith, h1Marker, h2Marker, h3Marker]


theorem headerLineSpec_idem (l : List Char) :
    headerLineSpec (headerLineSpec l) = headerLineSpec l := by
  by_cases s1 : startsWith h1Marker l = true
  · have e : headerLineSpec l = uboldL ++ l.drop 2 ++ uboldR := by
      unfold headerLineSpec
      rw [if_pos s1]
    rw [e]
    unfold headerLineSpec
    rw [if_neg (by simp [startsWith, h1Marker, uboldL] : ¬ startsWith h1Marker
        (uboldL ++ l.drop 2 ++ uboldR) = true),
      if_neg (by simp [startsWith, h2Marker, uboldL] : ¬ startsWith h2Marker
        (uboldL ++ l.drop 2 ++ uboldR) = true),
      if_neg (by simp [startsWith, h3Marker, uboldL] : ¬ startsWith h3Marker
        (uboldL ++ l.drop 2 ++ uboldR) = true)]
  · by_cases s2 : startsWith h2Marker l = true
    · have e : headerLineSpec l = uboldL ++ l.drop 3 ++ uboldR := by
        unfold headerLineSpec
        rw [if_neg s1, if_pos s2]
      rw [e]
      unfold headerLineSpec
      rw [if_neg (by simp [startsWith, h1Marker, uboldL] : ¬ startsWith h1Marker
          (uboldL ++ l.drop 3 ++ uboldR) = true),
        if_neg (by simp [startsWith, h2Marker, uboldL] : ¬ startsWith h2Marker
          (uboldL ++ l.drop 3 ++ uboldR) = true),
        if_neg (by simp [startsWith, h3Marker, uboldL] : ¬ startsWith h3Marker
          (uboldL ++ l.drop 3 ++ uboldR) = true)]
    · by_cases s3 : startsWith h3Marker l = true
      · have e : headerLineSpec l = boldMark ++ l.drop 4 ++ boldMark := by
          unfold headerLineSpec
          rw [if_neg s1, if_neg s2, if_pos s3]
        rw [e]
        unfold headerLineSpec
        rw [if_neg (by simp [startsWith, h1Marker, boldMark] : ¬ startsWith h1Marker
            (boldMark ++ l.drop 4 ++ boldMark) = true),
          if_neg (by simp [startsWith, h2Marker, boldMark] : ¬ startsWith h2Marker
            (boldMark ++ l.drop 4 ++ boldMark) = true),
          if_neg (by simp [startsWith, h3Marker, boldMark] : ¬ startsWith h3Marker
            (boldMark ++ l.drop 4 ++ boldMark) = true)]
      · have e : headerLineSpec l = l := by
          unfold headerLineSpec
          rw [if_neg s1, if_neg s2, if_neg s3]
        rw [e]
        exact e


theorem headerLineSpec_no_newline (l : List Char) (hl : '\n' ∉ l) :
    '\n' ∉ headerLineSpec l := by
  unfold headerLineSpec
  split
  · intro hmem
    simp [uboldL, uboldR] at hmem
    exact hl (List.drop_subset _ _ hmem)
  · split
    · intro hmem
      simp [uboldL, uboldR] at hmem
      exact hl (List.drop_subset _ _ hmem)
    · split
      · intro hmem
        simp [boldMark] at hmem
        exact hl (List.drop_subset _ _ hmem)
      · exact hl


theorem markdown_spec_eq (content : List Char) :
    markdown_to_discord_spec content = collapseNL (mdHeaders content) := rfl


theorem mdHeaders_of_fixed (y : List Char) (h : linesFixed y) : mdHeaders y = y := by
  unfold mdHeaders
  rw [show (splitNL y).map headerLineSpec = (splitNL y).map id from
    List.map_congr_left (fun a ha => h a ha), List.map_id, joinLines_splitNL]


theorem linesFixed_mdHeaders (content : List Char) : linesFixed (mdHeaders content) := by
  intro l hl
  unfold mdHeaders at hl
  rw [splitNL_joinLines _ (by simpa using splitNL_ne_nil content)
    (by
      intro x hx
      simp at hx
      obtain ⟨x0, hx0, rfl⟩ := hx
      exact headerLineSpec_no_newline x0 (mem_splitNL_no_newline content x0 hx0))] at hl
  simp at hl
  obtain ⟨x, hx, rfl⟩ := hl
  exact headerLineSpec_idem x


theorem linesFixed_collapseNL (y : List Char) (h : linesFixed y) :
    linesFixed (collapseNL y) := by
  intro l hl
  obtain ⟨hhd, htl⟩ := splitNL_collapseNL y
  rcases hs : splitNL (collapseNL y) with _ | ⟨x, xs⟩
  · exact absurd hs (splitNL_ne_nil _)
  rw [hs] at hl hhd htl
  simp only [List.mem_cons] at hl
  rcases hl with rfl | hl
  · rcases hs2 : splitNL y with _ | ⟨x2, xs2⟩
    · exact absurd hs2 (splitNL_ne_nil _)
    rw [hs2] at hhd
    simp at hhd
    subst hhd
    exact h l (by rw [hs2]; simp)
  · rcases htl l (by simpa using hl) with rfl | hmem
    · exact headerLineSpec_nil
    · exact h l (mem_of_mem_tail_list hmem)


/-- C9 (confirmed).  Idempotence of the markdown adaptation: applying
`markdown_to_discord` twice gives the same result as applying it once —
once header lines are rewritten to emphasis syntax and newline runs
collapsed, a second application changes nothing. -/
theorem markdown_to_discord_idem (s : List Char) :
    markdown_to_discord (markdown_to_discord s) = markdown_to_discord s := by
  have e : ∀ x, markdown_to_discord x = collapseNL (mdHeaders x) :=
    fun x => (markdown_eq_spec x).trans (markdown_spec_eq x)
  rw [e, e, mdHeaders_of_fixed _ (linesFixed_collapseNL _ (linesFixed_mdHeaders s)),
    collapseNL_idem]


theorem countSaves_append (a b : List Action) :
    countSaves (a ++ b) = countSaves a + countSaves b := by
  simp [countSaves, List.filter_append]


theorem announce_mc_filter (cfg : Config) (env : AnnounceEnv) :
    (announce_mc cfg env).filter isAnnOp = [] := by
  unfold announce_mc
  cases cfg.minecraft_chat with
  | none => rfl
  | some ch =>
    split
    · split
      · rfl
      · rfl
    · rfl


theorem announce_mc_saves (cfg : Config) (env : AnnounceEnv) :
    countSaves (announce_mc cfg env) = 0 := by
  unfold announce_mc
  cases cfg.minecraft_chat with
  | none => rfl
  | some ch =>
    split
    · split
      · rfl
      · rfl
    · rfl


/-- C10 (confirmed).  Unbound-role no-op: if the modlist channel role is
unbound (`None`), `update_modlist` returns immediately without issuing
any fetch or message operation and without mutating settings; likewise
`update_readme` when the readme channel role is unbound. -/
theorem unbound_role_noop (cfg : Config) (envM : ModlistEnv) (envR : ReadmeEnv)
    (h1 : cfg.modlist = none) (h2 : cfg.readme = none) :
    update_modlist cfg envM = (cfg, []) ∧ update_readme cfg envR = (cfg, []) := by
  constructor
  · unfold update_modlist
    rw [if_pos (Or.inr (by rw [h1]; rfl))]
  · unfold update_readme
    rw [if_pos (Or.inr (by rw [h2]; rfl))]


/-- Witness for the unbound-role no-op at a concrete configuration. -/
theorem unbound_role_noop_witness :
    cfgUnbound.modlist = none ∧ cfgUnbound.readme = none ∧
    update_modlist cfgUnbound envModlistW = (cfgUnbound, []) ∧
    update_readme cfgUnbound envReadmeW = (cfgUnbound, []) :=
  ⟨rfl, rfl, (unbound_role_noop cfgUnbound envModlistW envReadmeW rfl rfl).1,
    (unbound_role_noop cfgUnbound envModlistW envReadmeW rfl rfl).2⟩


/-- C8 (confirmed).  Upstream-fetch failure atomicity: when the HTTP
fetch of `check_github_releases` or `update_modlist` returns a
non-success status, the job returns after the fetch without sending,
editing or deleting any chat message and without mutating any settings
field. -/
theorem fetch_failure_atomic (cfg c2 : Config) (envC : CheckEnv) (envM : ModlistEnv)
    (hs : envC.sessionLive = true) (hf : envC.fetchStatus ≠ 200)
    (hs2 : envM.sessionLive = true) (hm : pyTruthy c2.modlist = true)
    (hf2 : envM.fetchStatus ≠ 200) :
    check_github_releases cfg envC = (cfg, [.fetchReleases]) ∧
    update_modlist c2 envM = (c2, [.fetchModlist]) := by
  constructor
  · unfold check_github_releases
    rw [if_neg (by simp [hs]), if_pos hf]
  · unfold update_modlist
    rw [if_neg (by simp [hs2, hm]), if_pos hf2]


/-- Witness for fetch-failure atomicity at concrete inputs. -/
theorem fetch_failure_atomic_witness :
    envCheckFail.sessionLive = true ∧ envCheckFail.fetchStatus ≠ 200 ∧
    envModlistFail.sessionLive = true ∧ pyTruthy cfgModlist.modlist = true ∧
    envModlistFail.fetchStatus ≠ 200 ∧
    check_github_releases cfgUnbound envCheckFail = (cfgUnbound, [.fetchReleases]) ∧
    update_modlist cfgModlist envModlistFail = (cfgModlist, [.fetchModlist]) := by
  refine ⟨rfl, by decide, rfl, rfl, by decide, ?_, ?_⟩
  · exact (fetch_failure_atomic cfgUnbound cfgModlist envCheckFail envModlistFail rfl
      (by decide) rfl rfl (by decide)).1
  · exact (fetch_failure_atomic cfgUnbound cfgModlist envCheckFail envModlistFail rfl
      (by decide) rfl rfl (by decide)).2


/-- C7 (confirmed).  Readme mirror: on every successful run of
`update_readme`, among the (at most 10) fetched last messages of the
target channel exactly those authored by the bot are deleted — so at most
10 deletions — then all content chunks are sent as new messages, and no
message identifier is recorded for this role: the configuration
(including `readme_message_id`) is unchanged. -/
theorem update_readme_mirror (cfg : Config) (env : ReadmeEnv) (ch : Nat)
    (hch : cfg.readme = some ch) (hch0 : ch ≠ 0) (hs : env.sessionLive = true)
    (hf : env.fetchStatus = 200) (hfound : env.channelFound = true)
    (hhist : env.history.length ≤ 10) :
    update_readme cfg env =
      (cfg, .fetchReadme ::
        ((env.history.filter (fun m => m.authorIsBot)).map (fun m => Action.deleted ch m.id) ++
          (split_content (markdown_to_discord env.content) 1900).enum.map
            (fun p => Action.sentText ch (env.newIds p.1) p.2))) ∧
    ((env.history.filter (fun m => m.authorIsBot)).map
        (fun m => Action.deleted ch m.id)).length ≤ 10 := by
  constructor
  · unfold update_readme
    rw [if_neg (by simp [hs, pyTruthy, hch, hch0]), if_neg (by simp [hf])]
    simp only [hch]
    rw [if_neg (by simp [hfound])]
  · rw [List.length_map]
    exact le_trans (List.length_filter_le _ _) hhist


/-- Witness for the readme mirror theorem at concrete inputs. -/
theorem update_readme_mirror_witness :
    cfgReadme.readme = some 2 ∧ (2 : Nat) ≠ 0 ∧ envReadmeRun.sessionLive = true ∧
    envReadmeRun.fetchStatus = 200 ∧ envReadmeRun.channelFound = true ∧
    envReadmeRun.history.length ≤ 10 ∧
    (update_readme cfgReadme envReadmeRun =
      (cfgReadme, .fetchReadme ::
        ((envReadmeRun.history.filter (fun m => m.authorIsBot)).map
            (fun m => Action.deleted 2 m.id) ++
          (split_content (markdown_to_discord envReadmeRun.content) 1900).enum.map
            (fun p => Action.sentText 2 (envReadmeRun.newIds p.1) p.2))) ∧
      ((envReadmeRun.history.filter (fun m => m.authorIsBot)).map
          (fun m => Action.deleted 2 m.id)).length ≤ 10) :=
  ⟨rfl, by decide, rfl, rfl, rfl, by decide,
    update_readme_mirror cfgReadme envReadmeRun 2 rfl (by decide) rfl rfl rfl (by decide)⟩


/-- C3 (confirmed).  Edit-or-send reconciliation for the
release-announcements role (under a resolvable channel, a successful
fallback send, and freshness of newly assigned message ids): when no
identifier is tracked the announcement is sent as a new message, its id
recorded and settings persisted; when an identifier is tracked and the
fetch-or-edit fails, a new message is sent and its id re-recorded with a
persist; on a successful in-place edit nothing is persisted and the
configuration is unchanged; and a persist happens only when the tracked
identifier changes. -/
theorem announce_new_release_reconcile (cfg : Config) (env : AnnounceEnv) (ch : Nat)
    (hch : cfg.release_announcements = some ch) (hch0 : ch ≠ 0)
    (hfound : env.raFound = true) (hsend : env.sendOk = true)
    (hfresh : cfg.release_announcement_id ≠ some env.newId) :
    (pyTruthy cfg.release_announcement_id = false →
      ((announce_new_release cfg env).2.filter isAnnOp = [.sentEmbed ch env.newId] ∧
       (announce_new_release cfg env).1.release_announcement_id = some env.newId ∧
       countSaves (announce_new_release cfg env).2 = 1)) ∧
    (∀ mid, cfg.release_announcement_id = some mid → mid ≠ 0 → env.editOk = false →
      ((announce_new_release cfg env).2.filter isAnnOp = [.sentEmbed ch env.newId] ∧
       (announce_new_release cfg env).1.release_announcement_id = some env.newId ∧
       countSaves (announce_new_release cfg env).2 = 1)) ∧
    (∀ mid, cfg.release_announcement_id = some mid → mid ≠ 0 → env.editOk = true →
      ((announce_new_release cfg env).2.filter isAnnOp = [.editedEmbed ch mid] ∧
       (announce_new_release cfg env).1 = cfg ∧
       countSaves (announce_new_release cfg env).2 = 0)) ∧
    (countSaves (announce_new_release cfg env).2 ≠ 0 →
      (announce_new_release cfg env).1.release_announcement_id ≠
        cfg.release_announcement_id) := by
  have hra : announce_new_release cfg env =
      ((announce_release_ra cfg env ch).1,
       (announce_release_ra cfg env ch).2 ++ announce_mc cfg env) := by
    simp [announce_new_release, hch, hch0, hfound]
  rw [hra]
  rcases hid : cfg.release_announcement_id with _ | mid
  · -- untracked: send-new path
    have hrar : announce_release_ra cfg env ch =
        ({ cfg with release_announcement_id := some env.newId },
         [.sentEmbed ch env.newId, .saveConfig]) := by
      unfold announce_release_ra announce_send_new
      rw [hid, if_pos hsend]
    rw [hrar]
    refine ⟨fun _ => ⟨?_, rfl, ?_⟩, ?_, ?_, ?_⟩
    · rw [List.filter_append, announce_mc_filter]
      rfl
    · rw [countSaves_append, announce_mc_saves]
      rfl
    · exact fun mid hmid => absurd hmid (by simp)
    · exact fun mid hmid => absurd hmid (by simp)
    · intro _
      simp
  · by_cases hm0 : mid = 0
    · -- tracked id is 0, hence falsy: send-new path
      subst hm0
      have hrar : announce_release_ra cfg env ch =
          ({ cfg with release_announcement_id := some env.newId },
           [.sentEmbed ch env.newId, .saveConfig]) := by
        unfold announce_release_ra announce_send_new
        rw [hid]
        simp [hsend]
      rw [hrar]
      rw [hid] at hfresh
      refine ⟨fun _ => ⟨?_, rfl, ?_⟩, ?_, ?_, ?_⟩
      · rw [List.filter_append, announce_mc_filter]
        rfl
      · rw [countSaves_append, announce_mc_saves]
        rfl
      · exact fun mid2 hmid2 hne2 _ =>
          absurd (Option.some_inj.mp hmid2).symm hne2
      · exact fun mid2 hmid2 hne2 _ =>
          absurd (Option.some_inj.mp hmid2).symm hne2
      · intro _
        exact fun hc => hfresh hc.symm
    · by_cases hedit : env.editOk = true
      · -- tracked and edit succeeds: pure edit
        have hrar : announce_release_ra cfg env ch = (cfg, [.editedEmbed ch mid]) := by
          unfold announce_release_ra
          rw [hid]
          simp [hm0, hedit]
        rw [hrar]
        have hsaves : countSaves ([Action.editedEmbed ch mid] ++ announce_mc cfg env) = 0 := by
          rw [countSaves_append, announce_mc_saves]
          rfl
        refine ⟨?_, ?_, ?_, fun hs0 => absurd hsaves hs0⟩
        · intro htr
          simp [pyTruthy, hm0] at htr
        · intro mid2 hmid2 _ hef
          rw [hef] at hedit
          simp at hedit
        · intro mid2 hmid2 _ _
          obtain rfl : mid = mid2 := Option.some_inj.mp hmid2
          refine ⟨?_, rfl, hsaves⟩
          rw [List.filter_append, announce_mc_filter]
          rfl
      · -- tracked and edit fails: send-new path
        have hrar : announce_release_ra cfg env ch =
            ({ cfg with release_announcement_id := some env.newId },
             [.sentEmbed ch env.newId, .saveConfig]) := by
          unfold announce_release_ra announce_send_new
          rw [hid]
          simp [hm0, hedit, hsend]
        rw [hrar]
        rw [hid] at hfresh
        refine ⟨?_, fun mid2 hmid2 _ _ => ⟨?_, rfl, ?_⟩, ?_, ?_⟩
        · intro htr
          simp [pyTruthy, hm0] at htr
        · rw [List.filter_append, announce_mc_filter]
          rfl
        · rw [countSaves_append, announce_mc_saves]
          rfl
        · intro mid2 hmid2 _ hef
          rw [hef] at hedit
          simp at hedit
        · intro _
          exact fun hc => hfresh hc.symm


/-- Witness for the edit-or-send reconciliation theorem at a concrete
configuration (untracked id; the new message is sent and recorded). -/
theorem announce_new_release_reconcile_witness :
    cfgAnnounce.release_announcements = some 3 ∧ (3 : Nat) ≠ 0 ∧
    envAnnounceW.raFound = true ∧ envAnnounceW.sendOk = true ∧
    cfgAnnounce.release_announcement_id ≠ some envAnnounceW.newId ∧
    ((pyTruthy cfgAnnounce.release_announcement_id = false →
      ((announce_new_release cfgAnnounce envAnnounceW).2.filter isAnnOp =
         [.sentEmbed 3 envAnnounceW.newId] ∧
       (announce_new_release cfgAnnounce envAnnounceW).1.release_announcement_id =
         some envAnnounceW.newId ∧
       countSaves (announce_new_release cfgAnnounce envAnnounceW).2 = 1)) ∧
     (∀ mid, cfgAnnounce.release_announcement_id = some mid → mid ≠ 0 →
        envAnnounceW.editOk = false →
       ((announce_new_release cfgAnnounce envAnnounceW).2.filter isAnnOp =
          [.sentEmbed 3 envAnnounceW.newId] ∧
        (announce_new_release cfgAnnounce envAnnounceW).1.release_announcement_id =
          some envAnnounceW.newId ∧
        countSaves (announce_new_release cfgAnnounce envAnnounceW).2 = 1)) ∧
     (∀ mid, cfgAnnounce.release_announcement_id = some mid → mid ≠ 0 →
        envAnnounceW.editOk = true →
       ((announce_new_release cfgAnnounce envAnnounceW).2.filter isAnnOp =
          [.editedEmbed 3 mid] ∧
        (announce_new_release cfgAnnounce envAnnounceW).1 = cfgAnnounce ∧
        countSaves (announce_new_release cfgAnnounce envAnnounceW).2 = 0)) ∧
     (countSaves (announce_new_release cfgAnnounce envAnnounceW).2 ≠ 0 →
       (announce_new_release cfgAnnounce envAnnounceW).1.release_announcement_id ≠
         cfgAnnounce.release_announcement_id)) :=
  ⟨rfl, by decide, rfl, rfl, by decide,
    announce_new_release_reconcile cfgAnnounce envAnnounceW 3 rfl (by decide) rfl rfl
      (by decide)⟩


/-! ### Claim C4: the modlist grow-resend behaviour -/

theorem pyStrip_replicate (n : Nat) (a : Char) (h : isWS a = false) :
    pyStrip (List.replicate n a) = List.replicate n a := by
  have h1 : List.dropWhile isWS (List.replicate n a) = List.replicate n a := by
    cases n with
    | zero => rfl
    | succ m =>
      rw [List.replicate_succ, List.dropWhile_cons]
      simp [h]
  unfold pyStrip
  rw [h1, List.reverse_replicate, h1, List.reverse_replicate]


theorem lineA_length : lineA.length = 1000 := List.length_replicate 1000 'a'


theorem lineB_length : lineB.length = 1000 := List.length_replicate 1000 'b'


theorem lineA_ne_nil : lineA ≠ [] := by
  intro h
  have h2 := congrArg List.length h
  rw [lineA_length] at h2
  simp at h2


theorem lineB_ne_nil : lineB ≠ [] := by
  intro h
  have h2 := congrArg List.length h
  rw [lineB_length] at h2
  simp at h2


theorem nl_not_mem_lineA : '\n' ∉ lineA := by
  intro hm
  unfold lineA at hm
  rcases List.mem_replicate.mp hm with ⟨_, h⟩
  exact absurd h (by decide)


theorem nl_not_mem_lineB : '\n' ∉ lineB := by
  intro hm
  unfold lineB at hm
  rcases List.mem_replicate.mp hm with ⟨_, h⟩
  exact absurd h (by decide)


theorem goodLine_lineA : goodLine 1900 lineA :=
  ⟨lineA_ne_nil, pyStrip_replicate 1000 'a' (by decide), by rw [lineA_length]; omega⟩


theorem goodLine_lineB : goodLine 1900 lineB :=
  ⟨lineB_ne_nil, pyStrip_replicate 1000 'b' (by decide), by rw [lineB_length]; omega⟩


theorem splitNL_mlContent : splitNL mlContent = [lineA, lineB] := by
  unfold mlContent
  apply splitNL_joinLines
  · simp
  · intro l hl
    simp at hl
    rcases hl with rfl | rfl
    · exact nl_not_mem_lineA
    · exact nl_not_mem_lineB


theorem mlContent_eq : mlContent = lineA ++ '\n' :: lineB := rfl


theorem mlContent_length : mlContent.length = 2001 := by
  rw [mlContent_eq]
  simp only [List.length_append, List.length_cons, lineA_length, lineB_length]


theorem split_content_mlContent : split_content mlContent 1900 = [lineA, lineB] := by
  unfold split_content
  rw [if_neg (by rw [mlContent_length]; omega)]
  rw [splitNL_mlContent]
  rw [split_loop_cons]
  rw [if_pos (by simp only [List.length_nil, lineA_length]; omega)]
  have hb1 : ([] : List Char) ++ lineA ++ ['\n'] = lineA ++ ['\n'] := by simp
  rw [hb1]
  rw [split_loop_cons]
  rw [if_neg (by
    simp only [List.length_append, List.length_cons, List.length_nil, lineA_length,
      lineB_length]
    omega)]
  rw [if_neg (by simp)]
  rw [split_loop_nil]
  rw [if_neg (by simp)]
  have hsA : pyStrip (lineA ++ ['\n']) = lineA :=
    pyStrip_buffer 1900 [lineA] (by simp)
      (by intro l hl; simp at hl; subst hl; exact goodLine_lineA)
  have hsB : pyStrip (lineB ++ ['\n']) = lineB :=
    pyStrip_buffer 1900 [lineB] (by simp)
      (by intro l hl; simp at hl; subst hl; exact goodLine_lineB)
  rw [hsA, hsB]


/-- C4 counterexample: with one chunk previously sent, a 2001-character
document splitting into two chunks makes the edit-success path delete and
resend, but the code neither re-records the first chunk's identifier nor
persists settings — the tracked id remains the (now deleted) message's. -/
theorem modlistGrowClaim_counterexample : ¬ modlistGrowClaim 1 cfgModTracked envModGrow := by
  intro h
  unfold modlistGrowClaim at h
  rw [show envModGrow.content = mlContent from rfl, split_content_mlContent] at h
  simp only [show cfgModTracked.modlist = some 1 from rfl,
    show cfgModTracked.modlist_message_id = some 5 from rfl] at h
  have h2 := h (show (1 : Nat) ≠ 0 by decide) (show (5 : Nat) ≠ 0 by decide) rfl rfl rfl rfl
  rw [if_pos (by simp)] at h2
  obtain ⟨_, _, hid, _⟩ := h2
  have hupd : (update_modlist cfgModTracked envModGrow).1 = cfgModTracked := rfl
  rw [hupd] at hid
  exact absurd hid (by decide)


theorem countSaves_eq_zero (tr : List Action) (h : ∀ a ∈ tr, a ≠ Action.saveConfig) :
    countSaves tr = 0 := by
  unfold countSaves
  have hfil : tr.filter (fun a => a = Action.saveConfig) = [] := by
    rw [List.filter_eq_nil_iff]
    intro a ha
    simp [h a ha]
  rw [hfil]
  rfl


/-- C4 (corrected).  Modlist reconciliation with a tracked (truthy)
identifier whose edit succeeds: the code compares the chunk count against
the constant one — not against the previously sent count — and when the
content needs more than one chunk it deletes the just-edited tracked
message and resends all chunks, but it neither re-records the first
chunk's identifier nor persists settings (the tracked id keeps pointing
at the deleted message); with at most one chunk the message is only
edited in place.  In all cases the configuration is unchanged and nothing
is persisted. -/
theorem update_modlist_grow_amended (cfg : Config) (env : ModlistEnv) (ch mid : Nat)
    (hch : cfg.modlist = some ch) (hch0 : ch ≠ 0)
    (hmid : cfg.modlist_message_id = some mid) (hmid0 : mid ≠ 0)
    (hs : env.sessionLive = true) (hf : env.fetchStatus = 200)
    (hfound : env.channelFound = true) (hedit : env.editOk = true) :
    (update_modlist cfg env).1 = cfg ∧
    countSaves (update_modlist cfg env).2 = 0 ∧
    (update_modlist cfg env).2 =
      .fetchModlist ::
        .editedText ch mid (if (split_content env.content 1900).isEmpty then emptyModlistMsg
          else wrapMd ((split_content env.content 1900).headD [])) ::
        (if (split_content env.content 1900).length > 1 then
          .deleted ch mid :: sendChunksMd ch env.newIds (split_content env.content 1900)
        else []) := by
  have hupd : update_modlist cfg env =
      (cfg, .fetchModlist ::
        .editedText ch mid (if (split_content env.content 1900).isEmpty then emptyModlistMsg
          else wrapMd ((split_content env.content 1900).headD [])) ::
        (if (split_content env.content 1900).length > 1 then
          .deleted ch mid :: sendChunksMd ch env.newIds (split_content env.content 1900)
        else [])) := by
    unfold update_modlist
    rw [if_neg (by simp [hs, pyTruthy, hch, hch0])]
    rw [if_neg (by simp [hf])]
    simp only [hch]
    rw [if_neg (by simp [hfound])]
    rw [if_pos (by simp [pyTruthy, hmid, hmid0])]
    simp only [hmid]
    rw [if_pos hedit]
  rw [hupd]
  refine ⟨rfl, ?_, rfl⟩
  apply countSaves_eq_zero
  intro a ha
  simp only [List.mem_cons] at ha
  rcases ha with rfl | rfl | ha
  · exact fun hcon => Action.noConfusion hcon
  · exact fun hcon => Action.noConfusion hcon
  · split at ha
    · simp only [List.mem_cons] at ha
      rcases ha with rfl | ha
      · exact fun hcon => Action.noConfusion hcon
      · unfold sendChunksMd at ha
        simp only [List.mem_map] at ha
        obtain ⟨p, _, rfl⟩ := ha
        exact fun hcon => Action.noConfusion hcon
    · simp at ha


/-- Witness for the amended modlist reconciliation theorem at a concrete
single-chunk input. -/
theorem update_modlist_grow_amended_witness :
    cfgModTracked.modlist = some 1 ∧ (1 : Nat) ≠ 0 ∧
    cfgModTracked.modlist_message_id = some 5 ∧ (5 : Nat) ≠ 0 ∧
    envModSmall.sessionLive = true ∧ envModSmall.fetchStatus = 200 ∧
    envModSmall.channelFound = true ∧ envModSmall.editOk = true ∧
    ((update_modlist cfgModTracked envModSmall).1 = cfgModTracked ∧
     countSaves (update_modlist cfgModTracked envModSmall).2 = 0 ∧
     (update_modlist cfgModTracked envModSmall).2 =
       .fetchModlist ::
         .editedText 1 5 (if (split_content envModSmall.content 1900).isEmpty
           then emptyModlistMsg
           else wrapMd ((split_content envModSmall.content 1900).headD [])) ::
         (if (split_content envModSmall.content 1900).length > 1 then
           .deleted 1 5 :: sendChunksMd 1 envModSmall.newIds
             (split_content envModSmall.content 1900)
         else [])) :=
  ⟨rfl, by decide, rfl, by decide, rfl, rfl, rfl, rfl,
    update_modlist_grow_amended cfgModTracked envModSmall 1 5 rfl (by decide) rfl (by decide)
      rfl rfl rfl rfl⟩


theorem announce_trace_no_call (cfg : Config) (env : AnnounceEnv) :
    ∀ a ∈ (announce_new_release cfg env).2, isAnnounceCall a = false := by
  intro a ha
  unfold announce_new_release announce_release_ra announce_send_new announce_mc at ha
  rw [List.mem_append] at ha
  rcases ha with ha | ha
  · split at ha
    · split at ha
      · split at ha
        · split at ha
          · split at ha
            · simp at ha
              subst ha
              rfl
            · split at ha
              · simp at ha
                rcases ha with rfl | rfl
                · rfl
                · rfl
              · simp at ha
          · split at ha
            · simp at ha
              rcases ha with rfl | rfl
              · rfl
              · rfl
            · simp at ha
        · split at ha
          · simp at ha
            rcases ha with rfl | rfl
            · rfl
            · rfl
          · simp at ha
      · simp at ha
    · simp at ha
  · split at ha
    · split at ha
      · simp at ha
        subst ha
        rfl
      · simp at ha
    · simp at ha


theorem modlist_trace_no_call (cfg : Config) (env : ModlistEnv) :
    ∀ a ∈ (update_modlist cfg env).2, isAnnounceCall a = false := by
  intro a ha
  unfold update_modlist at ha
  split at ha
  · simp at ha
  · split at ha
    · simp at ha
      subst ha
      rfl
    · split at ha
      · simp at ha
      · split at ha
        · simp at ha
          subst ha
          rfl
        · split at ha
          · split at ha
            · simp at ha
              subst ha
              rfl
            · split at ha
              · simp only [List.mem_cons] at ha
                rcases ha with rfl | rfl | ha
                · rfl
                · rfl
                · split at ha
                  · simp only [List.mem_cons] at ha
                    rcases ha with rfl | ha
                    · rfl
                    · unfold sendChunksMd at ha
                      simp only [List.mem_map] at ha
                      obtain ⟨p, _, rfl⟩ := ha
                      rfl
                  · simp at ha
              · simp only [List.mem_cons] at ha
                rcases ha with rfl | ha
                · rfl
                · unfold sendChunksMd at ha
                  simp only [List.mem_map] at ha
                  obtain ⟨p, _, rfl⟩ := ha
                  rfl
          · simp only [] at ha
            split at ha
            · simp at ha
              subst ha
              rfl
            · simp only [List.mem_cons] at ha
              rcases ha with rfl | rfl | rfl | ha
              · rfl
              · rfl
              · rfl
              · simp only [List.mem_map] at ha
                obtain ⟨p, _, rfl⟩ := ha
                rfl


theorem filter_call_announce (cfg : Config) (env : AnnounceEnv) :
    (announce_new_release cfg env).2.filter isAnnounceCall = [] :=
  List.filter_eq_nil_iff.mpr (fun a ha => by simp [announce_trace_no_call cfg env a ha])


theorem filter_call_modlist (cfg : Config) (env : ModlistEnv) :
    (update_modlist cfg env).2.filter isAnnounceCall = [] :=
  List.filter_eq_nil_iff.mpr (fun a ha => by simp [modlist_trace_no_call cfg env a ha])


/-- C5 (confirmed).  Release-tag gating for two consecutive successful
checks fetching the same (non-empty) tag, the first of which sees the tag
differ from the stored one: `announce_new_release` is invoked exactly
once over the two runs (on the first); the first run's trace starts with
the announce invocation and ends with the settings persist (the tag is
recorded only after the delivery attempt, and — since the delivery
environment is universally quantified — regardless of per-channel
delivery success); and the second run changes nothing. -/
theorem release_tag_gating (cfg : Config) (env1 env2 : CheckEnv) (t : List Char)
    (hs1 : env1.sessionLive = true) (hf1 : env1.fetchStatus = 200)
    (ht1 : env1.tagName = some t)
    (hs2 : env2.sessionLive = true) (hf2 : env2.fetchStatus = 200)
    (ht2 : env2.tagName = some t)
    (htne : t ≠ []) (hnew : some t ≠ cfg.last_release_tag) :
    announceCount ((check_github_releases cfg env1).2 ++
      (check_github_releases (check_github_releases cfg env1).1 env2).2) = 1 ∧
    (∃ mid, (check_github_releases cfg env1).2 =
      (.fetchReleases :: .announceCall t :: mid) ++ [.saveConfig]) ∧
    (check_github_releases cfg env1).1.last_release_tag = some t ∧
    check_github_releases (check_github_releases cfg env1).1 env2 =
      ((check_github_releases cfg env1).1, [.fetchReleases]) := by
  have h1 : check_github_releases cfg env1 =
      ({ (update_modlist (announce_new_release cfg env1.ann).1 env1.ml).1 with
          last_release_tag := some t },
       .fetchReleases :: .announceCall t ::
         ((announce_new_release cfg env1.ann).2 ++
          (update_modlist (announce_new_release cfg env1.ann).1 env1.ml).2) ++
         [.saveConfig]) := by
    unfold check_github_releases
    rw [if_neg (by simp [hs1]), if_neg (by simp [hf1])]
    simp only [ht1]
    rw [if_pos ⟨htne, hnew⟩]
  have hl1 : (check_github_releases cfg env1).1.last_release_tag = some t := by
    rw [h1]
  have h2 : check_github_releases (check_github_releases cfg env1).1 env2 =
      ((check_github_releases cfg env1).1, [.fetchReleases]) := by
    set c1 := (check_github_releases cfg env1).1 with hc1
    unfold check_github_releases
    rw [if_neg (by simp [hs2]), if_neg (by simp [hf2])]
    simp only [ht2]
    rw [if_neg (by simp [hl1])]
  have e1 : (check_github_releases cfg env1).2 =
      (.fetchReleases :: .announceCall t ::
        ((announce_new_release cfg env1.ann).2 ++
         (update_modlist (announce_new_release cfg env1.ann).1 env1.ml).2)) ++
        [.saveConfig] := by
    rw [h1]
  have e2 : (check_github_releases (check_github_releases cfg env1).1 env2).2 =
      [.fetchReleases] := by
    rw [h2]
  refine ⟨?_, ?_, hl1, h2⟩
  · rw [e2, e1]
    unfold announceCount
    rw [List.filter_append]
    simp only [List.cons_append, List.nil_append]
    rw [List.filter_cons, List.filter_cons]
    simp only [show isAnnounceCall Action.fetchReleases = false from rfl,
      show isAnnounceCall (Action.announceCall t) = true from rfl]
    rw [List.filter_append, List.filter_append, filter_call_announce, filter_call_modlist]
    simp [isAnnounceCall]
  · rw [e1]
    exact ⟨(announce_new_release cfg env1.ann).2 ++
      (update_modlist (announce_new_release cfg env1.ann).1 env1.ml).2, rfl⟩


/-- Witness for the release-tag gating theorem at a concrete
configuration: two consecutive checks of the same new tag announce once. -/
theorem release_tag_gating_witness :
    envCheckT.sessionLive = true ∧ envCheckT.fetchStatus = 200 ∧
    envCheckT.tagName = some ['v'] ∧ (['v'] : List Char) ≠ [] ∧
    some ['v'] ≠ cfgUnbound.last_release_tag ∧
    (announceCount ((check_github_releases cfgUnbound envCheckT).2 ++
        (check_github_releases (check_github_releases cfgUnbound envCheckT).1 envCheckT).2) =
          1 ∧
     (∃ mid, (check_github_releases cfgUnbound envCheckT).2 =
       (.fetchReleases :: .announceCall ['v'] :: mid) ++ [.saveConfig]) ∧
     (check_github_releases cfgUnbound envCheckT).1.last_release_tag = some ['v'] ∧
     check_github_releases (check_github_releases cfgUnbound envCheckT).1 envCheckT =
       ((check_github_releases cfgUnbound envCheckT).1, [.fetchReleases])) :=
  ⟨rfl, rfl, rfl, by decide, by decide,
    release_tag_gating cfgUnbound envCheckT envCheckT ['v'] rfl rfl rfl rfl rfl rfl
      (by decide) (by decide)⟩

end Trav
